import Mathlib

set_option maxRecDepth 4000
set_option maxHeartbeats 1600000

/-!
# Verification of the saham-mcp core against its specification

Shallow embedding of the core logic of the saham-mcp repository:

* `src/services/csv-parser.ts` — `CSVParser` (CSV ingestion, column-role
  inference, row validation, period slicing);
* `src/services/technical-analysis.ts` — `TechnicalAnalysis` (SMA, EMA,
  RSI, MACD and the composite summary);
* `src/data-sources/base.ts` — `DataSource` statistics / health tracking
  and `DataSourceManager` priority- and health-aware fallback.

Conventions of the embedding:

* JavaScript numbers are modelled as exact rationals `ℚ` (all the
  properties verified here are order/equality facts on parsed values and
  on arithmetic that is exact in `ℚ`); `NaN` sentinels are modelled as
  `none : Option ℚ`.
* JavaScript `Date` values are modelled by their epoch-millisecond
  timestamp (`Int`).  The constructor `new Date(y, m, d)` (local
  midnight, with JS month/day overflow normalization) is modelled by
  `mkTime`, built on the standard civil-from-days calendar algorithm.
* `null`/`undefined` results are `none`; a thrown exception in a data
  source capability is `Except.error ()`.
* The JS fallback `new Date(string)` date parse (host defined) is an
  oracle parameter `oracle : String → Option Int`; all theorems are
  universally quantified over it.
-/

namespace Saham

/-! ## Calendar model

`daysFromCivil y m d` is the number of days between the civil date given
by year `y`, **zero-based** month index `m` (as in JS `Date`) and
day-of-month `d`, and 1970-01-01, with the JS normalization of
out-of-range month indices and day numbers (month overflow moves the
year; day overflow just adds days). -/

def daysFromCivil (y m d : Int) : Int :=
  let ym := y + Int.fdiv m 12
  let mm := Int.fmod m 12
  let m1 := mm + 1
  let y1 := if m1 ≤ 2 then ym - 1 else ym
  let era := Int.fdiv y1 400
  let yoe := y1 - era * 400
  let mp := Int.fmod (m1 + 9) 12
  let doy := Int.fdiv (153 * mp + 2) 5
  let doe := yoe * 365 + Int.fdiv yoe 4 - Int.fdiv yoe 100 + doy
  era * 146097 + doe - 719468 + (d - 1)

def msPerDay : Int := 86400000

/-- Model of JS `new Date(y, m, d).getTime()` (months zero-based). -/
def mkTime (y m d : Int) : Int := daysFromCivil y m d * msPerDay

/-! ## Data model of the CSV parser (`csv-parser.ts`)

`StockDataPoint` mirrors the interface of the same name; the source
field `open` is spelled `open_` because `open` is a Lean keyword. -/

structure StockDataPoint where
  date : Int
  open_ : ℚ
  high : ℚ
  low : ℚ
  close : ℚ
  volume : ℚ
  adjustedClose : Option ℚ
deriving DecidableEq

structure ParsedStockData where
  ticker : String
  dataPoints : List StockDataPoint
  startDate : Int
  endDate : Int
  totalPoints : Nat
  columns : List String
deriving DecidableEq

/-- Error taxonomy of `CSVParser.parseStockCSV`: `parseError` is the
`'Invalid CSV data: insufficient rows'` throw, `dataError` the
`'No valid data points found in CSV'` throw. -/
inductive CSVError where
  | parseError : CSVError
  | dataError : CSVError
deriving DecidableEq

/-! ## String helpers mirroring the JS string operations used

`String.toLower/toUpper/trim/splitOn` from the standard library are
implemented on byte positions and do not reduce inside the kernel, so the
same functions are defined here structurally on the character list (all
separators used by the source are single characters). -/

def strToLower (s : String) : String := String.mk (s.toList.map Char.toLower)

def strToUpper (s : String) : String := String.mk (s.toList.map Char.toUpper)

/-- Remove leading and trailing whitespace (JS `trim`). -/
def strTrim (s : String) : String :=
  String.mk (((s.toList.dropWhile Char.isWhitespace).reverse.dropWhile Char.isWhitespace).reverse)

def splitOnAux (sep : Char) : List Char → List (List Char)
  | [] => [[]]
  | c :: t =>
    if c == sep then [] :: splitOnAux sep t
    else match splitOnAux sep t with
      | h :: r => (c :: h) :: r
      | [] => [[c]]

/-- JS `s.split(sep)` for a one-character separator. -/
def strSplitOn (s : String) (sep : Char) : List String :=
  (splitOnAux sep s.toList).map String.mk

/-- Boolean prefix test on character lists. -/
def listPrefixOf : List Char → List Char → Bool
  | [], _ => true
  | _ :: _, [] => false
  | a :: as, b :: bs => a == b && listPrefixOf as bs

/-- Boolean containment test on character lists (JS `String.includes`). -/
def listContains (pat : List Char) : List Char → Bool
  | [] => pat.isEmpty
  | c :: t => listPrefixOf pat (c :: t) || listContains pat t

/-- JS `s.includes(pat)`. -/
def strContains (s pat : String) : Bool := listContains pat.toList s.toList

/-- The header normalization `header.toLowerCase().replace(/[^a-z0-9]/g, '')`. -/
def normHeader (h : String) : String :=
  String.mk ((strToLower h).toList.filter fun c =>
    (decide ('a' ≤ c) && decide (c ≤ 'z')) || (decide ('0' ≤ c) && decide (c ≤ '9')))

/-- Numeral value of a list of decimal digit characters (JS `parseInt` on
an all-digit string). -/
def digitsVal (cs : List Char) : Nat :=
  cs.foldl (fun a c => a * 10 + (c.toNat - 48)) 0

def allDigits (s : String) : Bool := !s.isEmpty && s.toList.all Char.isDigit

/-! ## `CSVParser.parseNumber` -/

/-- Characters kept by `replace(/[^\d.-]/g, '')`. -/
def isNumChar (c : Char) : Bool := c.isDigit || c == '.' || c == '-'

/-- JS `parseFloat` on a string made of digits, `.` and `-` only (the
cleaned string of `parseNumber`): longest numeric prefix, `none` for NaN. -/
def jsParseFloat (s : String) : Option ℚ :=
  let cs := s.toList
  let neg := match cs with
    | c :: _ => c == '-'
    | [] => false
  let cs1 := if neg then cs.drop 1 else cs
  let intDigits := cs1.takeWhile Char.isDigit
  let rest := cs1.dropWhile Char.isDigit
  let fracDigits := match rest with
    | c :: t => if c == '.' then t.takeWhile Char.isDigit else []
    | [] => []
  if intDigits.isEmpty && fracDigits.isEmpty then none
  else
    let ip : ℚ := (digitsVal intDigits : ℚ)
    let fp : ℚ := (digitsVal fracDigits : ℚ) / (10 : ℚ) ^ fracDigits.length
    some ((if neg then -1 else 1) * (ip + fp))

/-- `CSVParser.parseNumber`; the argument is an `Option` because JS reads
`values[columnMap.x]` which is `undefined` when the column is unmapped. -/
def parseNumber (numStr : Option String) : Option ℚ :=
  match numStr with
  | none => none
  | some s =>
    if strTrim s == "" then none
    else
      let cleaned := String.mk (s.toList.filter isNumChar)
      if cleaned == "" || cleaned == "-" then none
      else jsParseFloat cleaned

/-! ## `CSVParser.parseDate`

The four regex patterns are implemented by exact-shape split-and-check;
the final generic `new Date(string)` fallback is the `oracle` parameter
(`none` = unparseable, i.e. the source throws and the row is skipped). -/

/-- Match `^(\d{4})sep(\d{1,2})sep(\d{1,2})$`. -/
def matchYMD (sep : Char) (s : String) : Option (Int × Int × Int) :=
  match strSplitOn s sep with
  | [a, b, c] =>
    if a.length == 4 && allDigits a && b.length ≤ 2 && allDigits b
        && c.length ≤ 2 && allDigits c then
      some ((digitsVal a.toList : Int), (digitsVal b.toList : Int), (digitsVal c.toList : Int))
    else none
  | _ => none

/-- Match `^(\d{1,2})sep(\d{1,2})sep(\d{4})$`. -/
def matchDMY (sep : Char) (s : String) : Option (Int × Int × Int) :=
  match strSplitOn s sep with
  | [a, b, c] =>
    if a.length ≤ 2 && allDigits a && b.length ≤ 2 && allDigits b
        && c.length == 4 && allDigits c then
      some ((digitsVal a.toList : Int), (digitsVal b.toList : Int), (digitsVal c.toList : Int))
    else none
  | _ => none

/-- Remove `"` and `'` characters (JS `replace(/["']/g, '')`);
the two quote characters are written by code point. -/
def removeQuotes (s : String) : String :=
  String.mk (s.toList.filter fun c => c != Char.ofNat 34 && c != Char.ofNat 39)

def parseDate (oracle : String → Option Int) (dateStr : String) : Option Int :=
  let cleaned := strTrim (removeQuotes dateStr)
  match matchYMD (Char.ofNat 45) cleaned with
  | some (y, mo, d) => some (mkTime y (mo - 1) d)
  | none =>
  match matchDMY (Char.ofNat 47) cleaned with
  | some (d, mo, y) => some (mkTime y (mo - 1) d)
  | none =>
  match matchDMY (Char.ofNat 45) cleaned with
  | some (d, mo, y) => some (mkTime y (mo - 1) d)
  | none =>
  match matchYMD (Char.ofNat 47) cleaned with
  | some (y, mo, d) => some (mkTime y (mo - 1) d)
  | none => oracle cleaned

/-! ## `CSVParser.createColumnMap` -/

structure ColumnMap where
  date : Option Nat := none
  open_ : Option Nat := none
  high : Option Nat := none
  low : Option Nat := none
  close : Option Nat := none
  volume : Option Nat := none
  adjustedClose : Option Nat := none
deriving DecidableEq

/-- The seven column roles resolved by `createColumnMap`. -/
inductive Role where
  | date | open_ | high | low | close | volume | adjustedClose
deriving DecidableEq

def roleGet (m : ColumnMap) : Role → Option Nat
  | .date => m.date
  | .open_ => m.open_
  | .high => m.high
  | .low => m.low
  | .close => m.close
  | .volume => m.volume
  | .adjustedClose => m.adjustedClose

/-- The per-role condition of the first `headers.forEach` pass of
`createColumnMap` (exact-name synonym tables; the adjusted-close role is
the one role matched by substring in this first pass, as in the source). -/
def pass1Cond (r : Role) (h : String) : Bool :=
  let n := normHeader h
  match r with
  | .date => n == "date" || n == "tanggal" || n == "time" || n == "timestamp"
  | .open_ => n == "open" || n == "openprice" || n == "buka"
  | .high => n == "high" || n == "tinggi" || n == "max"
  | .low => n == "low" || n == "rendah" || n == "min"
  | .close => n == "close" || n == "closeprice" || n == "tutup" || n == "akhir"
  | .volume => n == "volume" || n == "vol"
  | .adjustedClose => strContains n "adj" || strContains n "adjusted"

/-- The per-role substring condition of the secondary fallback passes
(roles `volume`/`adjustedClose` have no fallback pass in the source). -/
def fbCond (r : Role) (h : String) : Bool :=
  let n := normHeader h
  match r with
  | .date => strContains n "date" || strContains n "tanggal" || strContains n "time"
  | .open_ => strContains n "open" || strContains n "buka"
  | .high => strContains n "high" || strContains n "tinggi"
  | .low => strContains n "low" || strContains n "rendah"
  | .close => strContains n "close" || strContains n "tutup"
  | .volume => false
  | .adjustedClose => false

/-- One iteration of the first `headers.forEach` pass: each role's field
is assigned the current index exactly when its condition matches (the
seven `if`s of the source body act on independent fields). -/
def pass1Step (m : ColumnMap) (i : Nat) (h : String) : ColumnMap where
  date := if pass1Cond .date h then some i else m.date
  open_ := if pass1Cond .open_ h then some i else m.open_
  high := if pass1Cond .high h then some i else m.high
  low := if pass1Cond .low h then some i else m.low
  close := if pass1Cond .close h then some i else m.close
  volume := if pass1Cond .volume h then some i else m.volume
  adjustedClose := if pass1Cond .adjustedClose h then some i else m.adjustedClose

def pass1 (headers : List String) : ColumnMap :=
  headers.enum.foldl (fun m p => pass1Step m p.1 p.2) {}

/-- A `headers.forEach` pass that assigns every matching index in order:
the last matching header index wins (in the source the `return` inside
the date fallback only exits the callback, so it does not break the loop
either). -/
def lastMatchIdx (cond : String → Bool) (headers : List String) : Option Nat :=
  headers.enum.foldl (fun a p => if cond p.2 then some p.1 else a) none

def createColumnMap (headers : List String) : ColumnMap :=
  let m := pass1 headers
  let m := if m.date = none then { m with date := lastMatchIdx (fbCond .date) headers } else m
  let m := if m.open_ = none then { m with open_ := lastMatchIdx (fbCond .open_) headers } else m
  let m := if m.high = none then { m with high := lastMatchIdx (fbCond .high) headers } else m
  let m := if m.low = none then { m with low := lastMatchIdx (fbCond .low) headers } else m
  let m := if m.close = none then { m with close := lastMatchIdx (fbCond .close) headers } else m
  m

/-! ## `CSVParser.parseDataRow` -/

/-- `values[columnMap.r]`: `undefined` if the role is unmapped. -/
def colVal (values : List String) : Option Nat → Option String
  | none => none
  | some i => some (values.getD i "")

def parseDataRow (oracle : String → Option Int) (values : List String)
    (cm : ColumnMap) : Option StockDataPoint :=
  match cm.date with
  | none => none
  | some di =>
  match parseDate oracle (values.getD di "") with
  | none => none
  | some date =>
  match parseNumber (colVal values cm.open_), parseNumber (colVal values cm.high),
      parseNumber (colVal values cm.low), parseNumber (colVal values cm.close) with
  | some o, some h, some l, some c =>
    let volume : ℚ := (parseNumber (colVal values cm.volume)).getD 0
    let adjustedClose : Option ℚ :=
      match parseNumber (colVal values cm.adjustedClose) with
      | none => none
      | some q => if q = 0 then none else some q
    if o ≤ 0 ∨ h ≤ 0 ∨ l ≤ 0 ∨ c ≤ 0 then none
    else if h < max o c ∨ l > min o c ∨ h < l then none
    else some ⟨date, o, h, l, c, volume, adjustedClose⟩
  | _, _, _, _ => none

/-! ## `CSVParser.parseStockCSV` -/

def linesOf (raw : String) : List String := strSplitOn (strTrim raw) (Char.ofNat 10)

def headersOf (raw : String) : List String :=
  (strSplitOn ((linesOf raw).headD "") (Char.ofNat 44)).map fun h => strToLower (strTrim h)

/-- The data rows surviving the column-count check and `parseDataRow`. -/
def validRows (oracle : String → Option Int) (raw : String) : List StockDataPoint :=
  let headers := headersOf raw
  let cm := createColumnMap headers
  ((linesOf raw).drop 1).filterMap fun line =>
    let values := (strSplitOn line (Char.ofNat 44)).map strTrim
    if values.length ≠ headers.length then none
    else parseDataRow oracle values cm

/-- Sorting relation of `dataPoints.sort((a, b) => a.date.getTime() - b.date.getTime())`. -/
def dateLE (a b : StockDataPoint) : Prop := a.date ≤ b.date

instance : DecidableRel dateLE := fun a b => inferInstanceAs (Decidable (a.date ≤ b.date))

instance : IsTotal StockDataPoint dateLE := ⟨fun a b => le_total a.date b.date⟩

instance : IsTrans StockDataPoint dateLE := ⟨fun _ _ _ hab hbc => le_trans hab hbc⟩

def defaultPoint : StockDataPoint := ⟨0, 0, 0, 0, 0, 0, none⟩

def parseStockCSV (oracle : String → Option Int) (raw ticker : String) :
    Except CSVError ParsedStockData :=
  let lines := linesOf raw
  if lines.length < 2 then .error .parseError
  else
    let dataPoints := validRows oracle raw
    if dataPoints.isEmpty then .error .dataError
    else
      let sorted := List.insertionSort dateLE dataPoints
      .ok { ticker := strToUpper ticker
            dataPoints := sorted
            startDate := (sorted.headD defaultPoint).date
            endDate := (sorted.getLastD defaultPoint).date
            totalPoints := sorted.length
            columns := headersOf raw }

/-! ## `CSVParser.filterByDateRange` and `CSVParser.getDataForPeriod`

`new Date()` (the current instant) is modelled by a `NowDate` carrying the
calendar fields returned by `getFullYear()` (zero-based) `getMonth()`,
`getDate()`, plus the milliseconds elapsed since local midnight, so that
`getTime()` is `NowDate.time`. -/

structure NowDate where
  year : Int
  month : Int
  day : Int
  msOfDay : Int

def NowDate.time (n : NowDate) : Int := mkTime n.year n.month n.day + n.msOfDay

def filterByDateRange (data : ParsedStockData) (startDate endDate : Option Int) :
    List StockDataPoint :=
  let filtered := data.dataPoints
  let filtered := match startDate with
    | some s => filtered.filter fun p => decide (s ≤ p.date)
    | none => filtered
  let filtered := match endDate with
    | some e => filtered.filter fun p => decide (p.date ≤ e)
    | none => filtered
  filtered

def getDataForPeriod (now : NowDate) (data : ParsedStockData) (period : String) :
    List StockDataPoint :=
  let p := strToLower period
  if p == "1d" || p == "1day" then
    filterByDateRange data (some (now.time - msPerDay)) none
  else if p == "1w" || p == "1week" then
    filterByDateRange data (some (now.time - 7 * msPerDay)) none
  else if p == "1m" || p == "1month" then
    filterByDateRange data (some (mkTime now.year (now.month - 1) now.day)) none
  else if p == "3m" || p == "3months" then
    filterByDateRange data (some (mkTime now.year (now.month - 3) now.day)) none
  else if p == "6m" || p == "6months" then
    filterByDateRange data (some (mkTime now.year (now.month - 6) now.day)) none
  else if p == "1y" || p == "1year" then
    filterByDateRange data (some (mkTime (now.year - 1) now.month now.day)) none
  else if p == "2y" || p == "2years" then
    filterByDateRange data (some (mkTime (now.year - 2) now.month now.day)) none
  else if p == "5y" || p == "5years" then
    filterByDateRange data (some (mkTime (now.year - 5) now.month now.day)) none
  else data.dataPoints

/-! ## `TechnicalAnalysis` (`technical-analysis.ts`)

Indicator arrays are `List (Option ℚ)` with `none` for the `NaN`
sentinel.  All functions consume the same `StockDataPoint` series the
parser produces. -/

/-- JS `l.slice(a, b)` for `0 ≤ a ≤ b`. -/
def sliceJS (l : List α) (a b : Nat) : List α := (l.take b).drop a

def calculateSMA (data : List StockDataPoint) (period : Nat) : List (Option ℚ) :=
  (List.range data.length).map fun i =>
    if i < period - 1 then none
    else some ((((sliceJS data (i + 1 - period) (i + 1)).map StockDataPoint.close).sum) / period)

def emaRec (mult : ℚ) (prev : ℚ) : List ℚ → List ℚ
  | [] => []
  | c :: cs =>
    let today := (c - prev) * mult + prev
    today :: emaRec mult today cs

def calculateEMA (data : List StockDataPoint) (period : Nat) : List (Option ℚ) :=
  if data.length < period then data.map fun _ => none
  else
    let closes := data.map StockDataPoint.close
    let seed := (closes.take period).sum / (period : ℚ)
    let mult : ℚ := 2 / ((period : ℚ) + 1)
    (List.replicate (period - 1) (none : Option ℚ)) ++
      (some seed) :: (emaRec mult seed (closes.drop period)).map some

def gainsOf (data : List StockDataPoint) : List ℚ :=
  (List.range (data.length - 1)).map fun i =>
    let change := (data.getD (i + 1) defaultPoint).close - (data.getD i defaultPoint).close
    if change > 0 then change else 0

def lossesOf (data : List StockDataPoint) : List ℚ :=
  (List.range (data.length - 1)).map fun i =>
    let change := (data.getD (i + 1) defaultPoint).close - (data.getD i defaultPoint).close
    if change < 0 then |change| else 0

/-- `gains.slice(i - period + 1, i + 1).reduce(+) / period`. -/
def avgGainAt (data : List StockDataPoint) (period i : Nat) : ℚ :=
  (sliceJS (gainsOf data) (i + 1 - period) (i + 1)).sum / period

def avgLossAt (data : List StockDataPoint) (period i : Nat) : ℚ :=
  (sliceJS (lossesOf data) (i + 1 - period) (i + 1)).sum / period

def calculateRSI (data : List StockDataPoint) (period : Nat) : List (Option ℚ) :=
  let gains := gainsOf data
  let rsi := (List.range gains.length).map fun i =>
    if i < period - 1 then none
    else
      let avgGain := avgGainAt data period i
      let avgLoss := avgLossAt data period i
      if avgLoss = 0 then some 100
      else some (100 - 100 / (1 + avgGain / avgLoss))
  none :: rsi

def emaFromRec (mult : ℚ) (prev : ℚ) : List (Option ℚ) → List ℚ
  | [] => []
  | some v :: vs =>
    let today := (v - prev) * mult + prev
    today :: emaFromRec mult today vs
  | none :: vs => prev :: emaFromRec mult prev vs

/-- `TechnicalAnalysis.calculateEMAFromValues`: seeds from the first
window of non-`NaN` values, carries the previous EMA forward over `NaN`
entries. -/
def calculateEMAFromValues (values : List (Option ℚ)) (period : Nat) : List (Option ℚ) :=
  match values.findIdx? Option.isSome with
  | none => values.map fun _ => none
  | some start =>
    if start + period - 1 < values.length then
      let window := (sliceJS values start (start + period)).filterMap id
      let seed := window.sum / (window.length : ℚ)
      (List.replicate (start + period - 1) (none : Option ℚ)) ++
        (some seed) ::
          (emaFromRec (2 / ((period : ℚ) + 1)) seed (values.drop (start + period))).map some
    else List.replicate (start + period - 1) (none : Option ℚ)

structure MACDResult where
  macd : List (Option ℚ)
  signal : List (Option ℚ)
  histogram : List (Option ℚ)
deriving DecidableEq

def calculateMACD (data : List StockDataPoint)
    (fastPeriod slowPeriod signalPeriod : Nat) : MACDResult :=
  let fastEMA := calculateEMA data fastPeriod
  let slowEMA := calculateEMA data slowPeriod
  let macd := (List.range data.length).map fun i =>
    match fastEMA.getD i none, slowEMA.getD i none with
    | some f, some s => some (f - s)
    | _, _ => none
  let signal := calculateEMAFromValues macd signalPeriod
  let histogram := (List.range macd.length).map fun i =>
    match macd.getD i none, signal.getD i none with
    | some m, some s => some (m - s)
    | _, _ => none
  ⟨macd, signal, histogram⟩

structure Summary where
  trend : String
  strength : String
  recommendation : String
  confidence : ℚ
deriving DecidableEq

/-- `TechnicalAnalysis.generateSummary`.  The source receives the whole
indicator bundle but reads only `sma[20]`, `sma[50]`, `rsi` and
`macd.{macd,signal}`, which are the arguments here.  In `ℚ`, `0 / 0 = 0`,
which lands in the same `neutral` branch as the JS `0/0 = NaN` (every
NaN comparison is false). -/
def generateSummary (data : List StockDataPoint) (sma20 sma50 rsi : List (Option ℚ))
    (macdR : MACDResult) : Summary :=
  let currentPrice := (data.getLastD defaultPoint).close
  let sig1 : Option (String × ℚ) :=
    match sma20.getLastD none, sma50.getLastD none with
    | some s20, some s50 =>
      if currentPrice > s20 ∧ s20 > s50 then some ("bullish", 3/10)
      else if currentPrice < s20 ∧ s20 < s50 then some ("bearish", 3/10)
      else some ("neutral", 1/10)
    | _, _ => none
  let sig2 : Option (String × ℚ) :=
    match rsi.getLastD none with
    | some r =>
      if r > 70 then some ("bearish", 1/4)
      else if r < 30 then some ("bullish", 1/4)
      else some ("neutral", 1/10)
    | none => none
  let sig3 : Option (String × ℚ) :=
    match macdR.macd.getLastD none, macdR.signal.getLastD none with
    | some m, some s => if m > s then some ("bullish", 1/5) else some ("bearish", 1/5)
    | _, _ => none
  let signals := [sig1, sig2, sig3].filterMap id
  let totalWeight := (signals.map Prod.snd).sum
  let bullishScore := ((signals.filter fun x => x.1 == "bullish").map Prod.snd).sum
  let bearishScore := ((signals.filter fun x => x.1 == "bearish").map Prod.snd).sum
  let bullishPercent := bullishScore / totalWeight
  let bearishPercent := bearishScore / totalWeight
  if bullishPercent > 3/5 then
    ⟨"bullish", if bullishPercent > 4/5 then "strong" else "moderate", "buy", bullishPercent⟩
  else if bearishPercent > 3/5 then
    ⟨"bearish", if bearishPercent > 4/5 then "strong" else "moderate", "sell", bearishPercent⟩
  else ⟨"neutral", "weak", "hold", 1/2⟩

/-- The summary-relevant projection of `TechnicalAnalysis.analyzeStock`:
the length guard (`throw 'Insufficient data for analysis'` = `error ()`)
followed by `generateSummary` over the indicators it reads (`sma[20]`,
`sma[50]`, `rsi` with default period 14, `macd` with defaults 12/26/9).
`analyzeStock` also computes `sma[200]`, `ema`, `bollinger`,
support/resistance and volatility, but none of these flow into
`summary` (and the last three take square roots, which leave `ℚ`). -/
def analyzeStockSummary (data : List StockDataPoint) : Except Unit Summary :=
  if data.length < 2 then .error ()
  else
    .ok (generateSummary data (calculateSMA data 20) (calculateSMA data 50)
      (calculateRSI data 14) (calculateMACD data 12 26 9))

/-- One step of the EMA recurrence `(value - prev) * multiplier + prev`
shared by `calculateEMA` and `calculateEMAFromValues`. -/
def emaStep (mult prev c : ℚ) : ℚ := (c - prev) * mult + prev

/-- The EMA value after consuming the whole list `l`, starting from
`prev` — the value the recurrences of `emaRec`/`emaFromRec` reach. -/
def emaAfter (mult prev : ℚ) (l : List ℚ) : ℚ := l.foldl (emaStep mult) prev

/-- The daily growth ratio of claim C4's series: +0.5% per day. -/
def c4r : ℚ := 201/200

def c4close (n : Nat) : ℚ := 100 * c4r ^ n

/-- The 300-point daily series of claim C4: close rises by a steady
+0.5% per day. -/
def c4data : List StockDataPoint :=
  (List.range 300).map fun (n : Nat) =>
    ⟨(n : Int) * msPerDay, c4close n, c4close n, c4close n, c4close n, 0, none⟩

def c4closes : List ℚ := c4data.map StockDataPoint.close

/-- The seed of the EMA with period `p` over the C4 series (the SMA of
the first `p` closes). -/
def c4seed (p : Nat) : ℚ := (c4closes.take p).sum / (p : ℚ)

/-- The EMA with period `p` over the C4 series at index `n ≥ p - 1`,
expressed through the recurrence (this is the value `calculateEMA`
stores at index `n`, proved below). -/
def c4E (p n : Nat) : ℚ :=
  emaAfter (2 / ((p : ℚ) + 1)) (c4seed p) ((c4closes.take (n + 1)).drop p)

/-- The MACD line value at index `n ≥ 25` of the C4 series. -/
def c4M (n : Nat) : ℚ := c4E 12 n - c4E 26 n

/-- The signal-line seed: mean of the first 9 defined MACD values
(indices 25–33). -/
def c4sigseed : ℚ := (((List.range' 25 9).map c4M).sum) / 9

/-- The signal line at index `n ≥ 33` of the C4 series. -/
def c4SIG (n : Nat) : ℚ :=
  (List.range' 34 (n - 33)).foldl (fun p i => emaStep (2 / ((9 : ℚ) + 1)) p (c4M i)) c4sigseed

/-- The last simple moving average with window `p` of the C4 series
(the value `calculateSMA` stores at index 299). -/
def c4sma (p : Nat) : ℚ := ((sliceJS c4data (300 - p) 300).map StockDataPoint.close).sum / p

/-- The exact level of the 26-day EMA relative to the close at its seed
index 25, `c4seed 26 / c4close 25`.  Because each close is the previous
one times `c4r`, this ratio is a lower bound that the 26-day EMA keeps
relative to the current close forever after (proved below); it is
strictly below the corresponding fixed point `402/427` of the EMA-26
recurrence. -/
def c4w26 : ℚ := c4seed 26 / c4close 25

/-! ## `DataSource` statistics and `DataSourceManager` (`base.ts`) -/

structure DataSourceStats where
  successCount : Nat
  errorCount : Nat
  averageResponseTime : ℚ
  isHealthy : Bool
  lastRequest : Option Int
deriving DecidableEq

def initStats : DataSourceStats :=
  { successCount := 0, errorCount := 0, averageResponseTime := 0
    isHealthy := true, lastRequest := none }

/-- `DataSource.updateStats`. -/
def updateStats (st : DataSourceStats) (success : Bool) (responseTime : ℚ) :
    DataSourceStats :=
  let st :=
    if success then { st with successCount := st.successCount + 1 }
    else { st with errorCount := st.errorCount + 1 }
  let totalRequests : Nat := st.successCount + st.errorCount
  let avg := (st.averageResponseTime * ((totalRequests : ℚ) - 1) + responseTime) /
    (totalRequests : ℚ)
  let recentErrorRate := (st.errorCount : ℚ) / max (totalRequests : ℚ) 10
  { st with averageResponseTime := avg, isHealthy := decide (recentErrorRate ≤ 1/2) }

/-- `DataSource.makeRequest`: `outcome` is the raced request (`error ()`
for a thrown error or a timeout); both branches update the statistics
and set `lastRequest`, the catch branch returns `null`. -/
def makeRequest (st : DataSourceStats) (outcome : Except Unit α) (responseTime : ℚ)
    (nowT : Int) : Option α × DataSourceStats :=
  match outcome with
  | .ok v => (some v, { updateStats st true responseTime with lastRequest := some nowT })
  | .error _ => (none, { updateStats st false responseTime with lastRequest := some nowT })

/-- The statistics record after a history of wrapped calls
(`true` = success, paired with the call's response time). -/
def statsAfter (hist : List (Bool × ℚ)) : DataSourceStats :=
  hist.foldl (fun st e => updateStats st e.1 e.2) initStats

/-- One registered adapter as the coordinator sees it during a single
capability call: its static priority, its current health bit, and the
result of invoking the capability (`error ()` = the operation throws,
`ok none` = it resolves `null`, `ok (some v)` = a truthy value; the
capability results are objects or arrays, for which JS truthiness is
exactly non-`null`). -/
structure Source (β : Type) where
  priority : Nat
  healthy : Bool
  response : Except Unit (Option β)

/-- Does `operation(source)` produce a truthy result? -/
def hitSome (s : Source β) : Bool :=
  match s.response with
  | .ok (some _) => true
  | _ => false

/-- One `for (const source of list)` loop of `tryDataSources`, returning
the result together with the list of sources actually invoked. -/
def runSources : List (Source β) → Option β × List (Source β)
  | [] => (none, [])
  | s :: rest =>
    match s.response with
    | .ok (some v) => (some v, [s])
    | _ =>
      let r := runSources rest
      (r.1, s :: r.2)

/-- `DataSourceManager.tryDataSources` instrumented with the invocation
trace: restrict to healthy sources; only when that subset is empty fall
back to trying every registered source. -/
def tryDataSources (l : List (Source β)) : Option β × List (Source β) :=
  let healthySources := l.filter Source.healthy
  if healthySources.isEmpty then runSources l
  else runSources healthySources

/-- `DataSourceManager.searchStocks`: `(await this.tryDataSources(...)) || []`. -/
def searchStocks (l : List (Source (List γ))) : List γ :=
  ((tryDataSources l).1).getD []

/-! ## Reference-level model for `getStats` (claim C10)

`Mem` is a tiny heap of statistics records; `DataSource.getStats`
(`return { ...this.stats }`) allocates a fresh record holding a copy of
the adapter's record; capability calls write the adapter's record in
place; `writeRef` models arbitrary field mutation of a record. -/

structure Mem where
  recs : List DataSourceStats

def readRef (m : Mem) (r : Nat) : DataSourceStats := m.recs.getD r initStats

def writeRef (m : Mem) (r : Nat) (v : DataSourceStats) : Mem := ⟨m.recs.set r v⟩

/-- `getStats()` on the adapter whose record is `a`: shallow-copies the
record into a fresh one and returns its reference. -/
def getStatsCall (m : Mem) (a : Nat) : Nat × Mem :=
  (m.recs.length, ⟨m.recs ++ [readRef m a]⟩)

/-- A wrapped capability call on the adapter whose record is `a`
(statistics side only). -/
def capabilityCall (m : Mem) (a : Nat) (success : Bool) (rt : ℚ) : Mem :=
  writeRef m a (updateStats (readRef m a) success rt)

def capabilityCalls (m : Mem) (calls : List (Nat × Bool × ℚ)) : Mem :=
  calls.foldl (fun m e => capabilityCall m e.1 e.2.1 e.2.2) m

/-- The statistics record after a history of wrapped capability calls,
each event being the raced outcome (the capability value itself does not
affect the statistics, so it is `Unit`), the response time, and the
`Date.now()` of the call. -/
def requestsAfter (events : List (Except Unit Unit × ℚ × Int)) : DataSourceStats :=
  events.foldl (fun st e => (makeRequest st e.1 e.2.1 e.2.2).2) initStats

/-! ## Concrete data for claim C6

A "now" of 2024-06-15 12:00 (month index 5 = June) and a two-point
series whose dates straddle the `1d` cutoff `now - 24h` (= 2024-06-14
12:00) by one millisecond. -/

def c6now : NowDate := ⟨2024, 5, 15, 43200000⟩

def c6T : Int := c6now.time - msPerDay

def c6p1 : StockDataPoint := ⟨c6T - 1, 1, 1, 1, 1, 0, none⟩

def c6p2 : StockDataPoint := ⟨c6T, 1, 1, 1, 1, 0, none⟩

def c6data : ParsedStockData := ⟨"TEST", [c6p1, c6p2], c6p1.date, c6p2.date, 2, []⟩

end Saham

/-! # Theorems -/

namespace Saham

/-! ## Statistics invariants (claim C8) -/

theorem updateStats_successCount (st : DataSourceStats) (b : Bool) (rt : ℚ) :
    (updateStats st b rt).successCount = st.successCount + (if b then 1 else 0) := by
  cases b <;> simp [updateStats]

theorem updateStats_errorCount (st : DataSourceStats) (b : Bool) (rt : ℚ) :
    (updateStats st b rt).errorCount = st.errorCount + (if b then 0 else 1) := by
  cases b <;> simp [updateStats]

theorem updateStats_avg (st : DataSourceStats) (b : Bool) (rt : ℚ) :
    (updateStats st b rt).averageResponseTime =
      (st.averageResponseTime *
          (((updateStats st b rt).successCount + (updateStats st b rt).errorCount : ℕ) - 1 : ℚ)
        + rt) / (((updateStats st b rt).successCount + (updateStats st b rt).errorCount : ℕ) : ℚ) := by
  cases b <;> simp [updateStats]

theorem updateStats_isHealthy (st : DataSourceStats) (b : Bool) (rt : ℚ) :
    (updateStats st b rt).isHealthy =
      decide (((updateStats st b rt).errorCount : ℚ) /
        max (((updateStats st b rt).successCount + (updateStats st b rt).errorCount : ℕ) : ℚ) 10
        ≤ 1/2) := by
  cases b <;> simp [updateStats]

theorem makeRequest_stats (st : DataSourceStats) (o : Except Unit α) (rt : ℚ) (t : Int) :
    (makeRequest st o rt t).2 = { updateStats st o.isOk rt with lastRequest := some t } := by
  cases o <;> rfl

/-- Invariant of the running statistics: counts count, the average is the
exact running mean, health is the derived predicate on the counts. -/
theorem requestsAfter_spec (events : List (Except Unit Unit × ℚ × Int)) :
    (requestsAfter events).successCount = (events.filter fun e => e.1.isOk).length
    ∧ (requestsAfter events).errorCount = (events.filter fun e => !e.1.isOk).length
    ∧ (requestsAfter events).successCount + (requestsAfter events).errorCount = events.length
    ∧ (requestsAfter events).averageResponseTime =
        (if events.length = 0 then 0 else ((events.map fun e => e.2.1).sum) / (events.length : ℚ))
    ∧ (requestsAfter events).isHealthy =
        decide (((requestsAfter events).errorCount : ℚ) /
          max (((requestsAfter events).successCount + (requestsAfter events).errorCount : ℕ) : ℚ)
            10 ≤ 1/2) := by
  induction events using List.reverseRecOn with
  | nil =>
    refine ⟨rfl, rfl, rfl, rfl, ?_⟩
    rw [show (requestsAfter []).isHealthy = true from rfl, eq_comm, decide_eq_true_iff]
    norm_num [requestsAfter, initStats]
  | append_singleton es e ih =>
    obtain ⟨hs, he, hn, ha, _⟩ := ih
    have hfold : requestsAfter (es ++ [e]) = (makeRequest (requestsAfter es) e.1 e.2.1 e.2.2).2 := by
      simp [requestsAfter]
    rw [hfold, makeRequest_stats]
    set st := requestsAfter es with hst
    have hsucc : (updateStats st e.1.isOk e.2.1).successCount
        = st.successCount + (if e.1.isOk then 1 else 0) := updateStats_successCount ..
    have herr : (updateStats st e.1.isOk e.2.1).errorCount
        = st.errorCount + (if e.1.isOk then 0 else 1) := updateStats_errorCount ..
    have hcnt : (updateStats st e.1.isOk e.2.1).successCount
        + (updateStats st e.1.isOk e.2.1).errorCount = es.length + 1 := by
      rw [hsucc, herr]
      cases h : e.1.isOk <;> simp <;> omega
    refine ⟨?_, ?_, ?_, ?_, ?_⟩
    · show (updateStats st e.1.isOk e.2.1).successCount = _
      rw [hsucc, hs]
      cases h : e.1.isOk <;> simp [h]
    · show (updateStats st e.1.isOk e.2.1).errorCount = _
      rw [herr, he]
      cases h : e.1.isOk <;> simp [h]
    · show (updateStats st e.1.isOk e.2.1).successCount
        + (updateStats st e.1.isOk e.2.1).errorCount = _
      rw [hcnt]; simp
    · show (updateStats st e.1.isOk e.2.1).averageResponseTime = _
      rw [updateStats_avg, hcnt, ha]
      rcases Nat.eq_zero_or_pos es.length with h0 | hpos
      · have hes : es = [] := List.length_eq_zero.mp h0
        subst hes; simp
      · have hne : (es.length : ℚ) ≠ 0 := Nat.cast_ne_zero.mpr (Nat.pos_iff_ne_zero.mp hpos)
        have h1 : ((es.length + 1 : ℕ) : ℚ) - 1 = (es.length : ℚ) := by push_cast; ring
        rw [if_neg (Nat.pos_iff_ne_zero.mp hpos), h1, div_mul_cancel₀ _ hne]
        simp [Nat.succ_ne_zero]
    · show (updateStats st e.1.isOk e.2.1).isHealthy = _
      exact updateStats_isHealthy ..

/-- C8: after every wrapped capability call (success, throw or timeout),
exactly one of `successCount`/`errorCount` is incremented, the average
response time is the exact running mean over all attempts so far, and
`isHealthy` is `errorCount / max(totalAttempts, 10) ≤ 0.5` evaluated on
the updated counts. -/
theorem C8_stats_after_every_call (events : List (Except Unit Unit × ℚ × Int))
    (e : Except Unit Unit × ℚ × Int) :
    ((e.1.isOk = true →
        (requestsAfter (events ++ [e])).successCount = (requestsAfter events).successCount + 1
        ∧ (requestsAfter (events ++ [e])).errorCount = (requestsAfter events).errorCount)
      ∧ (e.1.isOk = false →
        (requestsAfter (events ++ [e])).successCount = (requestsAfter events).successCount
        ∧ (requestsAfter (events ++ [e])).errorCount = (requestsAfter events).errorCount + 1))
    ∧ (requestsAfter (events ++ [e])).averageResponseTime =
        (((events ++ [e]).map fun x => x.2.1).sum) / ((events.length + 1 : ℕ) : ℚ)
    ∧ (requestsAfter (events ++ [e])).isHealthy =
        decide (((requestsAfter (events ++ [e])).errorCount : ℚ) /
          max (((requestsAfter (events ++ [e])).successCount
            + (requestsAfter (events ++ [e])).errorCount : ℕ) : ℚ) 10 ≤ 1/2) := by
  obtain ⟨hs, he, hn, ha, hh⟩ := requestsAfter_spec (events ++ [e])
  obtain ⟨hs0, he0, hn0, ha0, hh0⟩ := requestsAfter_spec events
  refine ⟨⟨?_, ?_⟩, ?_, ?_⟩
  · intro hok
    constructor
    · rw [hs, hs0]; simp [hok]
    · rw [he, he0]; simp [hok]
  · intro hko
    constructor
    · rw [hs, hs0]; simp [hko]
    · rw [he, he0]; simp [hko]
  · rw [ha]; simp
  · exact hh

/-- Witness for C8 at a concrete history: one success of 4 ms then one
failure of 6 ms leaves counts (1, 1) and average 5 ms. -/
theorem C8_stats_witness :
    (requestsAfter [(.ok (), 4, 0), (.error (), 6, 1)]).errorCount
        = (requestsAfter [(.ok (), 4, 0)]).errorCount + 1
    ∧ (requestsAfter [(.ok (), 4, 0), (.error (), 6, 1)]).averageResponseTime = 5 := by
  have h := C8_stats_after_every_call [(.ok (), 4, 0)] (.error (), 6, 1)
  refine ⟨(h.1.2 rfl).2, ?_⟩
  have h2 := h.2.1
  norm_num at h2
  exact h2

/-! ## `getStats` returns a defensive copy (claim C10) -/

theorem readRef_writeRef_ne (mm : Mem) (i j : Nat) (hij : i ≠ j) (v : DataSourceStats) :
    readRef (writeRef mm i v) j = readRef mm j := by
  simp [readRef, writeRef, List.getD_eq_getElem?_getD, List.getElem?_set_ne hij]

theorem capabilityCalls_preserve (calls : List (Nat × Bool × ℚ)) :
    ∀ (mm : Mem) (s : Nat), (∀ e ∈ calls, e.1 ≠ s) →
      readRef (capabilityCalls mm calls) s = readRef mm s := by
  induction calls with
  | nil => intro mm s _; rfl
  | cons e rest ih =>
    intro mm s hne
    have h1 : capabilityCalls mm (e :: rest)
        = capabilityCalls (capabilityCall mm e.1 e.2.1 e.2.2) rest := rfl
    rw [h1, ih _ s (fun x hx => hne x (List.mem_cons_of_mem e hx))]
    exact readRef_writeRef_ne _ _ _ (hne e (List.mem_cons_self e rest)) _

/-- C10: `getStats` returns a copy: the snapshot holds the adapter's
current statistics, mutating the snapshot record never changes the
adapter's record, and any sequence of later capability calls on the
registered adapters never changes the snapshot. -/
theorem C10_getStats_copy (m : Mem) (a : Nat) (h : a < m.recs.length) :
    readRef (getStatsCall m a).2 (getStatsCall m a).1 = readRef m a
    ∧ (∀ v, readRef (writeRef (getStatsCall m a).2 (getStatsCall m a).1 v) a = readRef m a)
    ∧ (∀ calls : List (Nat × Bool × ℚ), (∀ e ∈ calls, e.1 < m.recs.length) →
        readRef (capabilityCalls (getStatsCall m a).2 calls) (getStatsCall m a).1
          = readRef m a) := by
  have hfst : (getStatsCall m a).1 = m.recs.length := rfl
  have hsnap : readRef (getStatsCall m a).2 (getStatsCall m a).1 = readRef m a := by
    simp [getStatsCall, readRef, List.getD_eq_getElem?_getD]
  refine ⟨hsnap, ?_, ?_⟩
  · intro v
    rw [hfst, readRef_writeRef_ne _ _ _ (Nat.ne_of_gt h) v]
    simp [getStatsCall, readRef, List.getD_eq_getElem?_getD, List.getElem?_append_left h]
  · intro calls hc
    rw [hfst, capabilityCalls_preserve calls _ _ fun e he => Nat.ne_of_lt (hc e he)]
    rw [← hfst]
    exact hsnap

/-- Witness for C10: a one-adapter heap; a snapshot taken before a failed
call still shows the initial statistics, while the adapter's own record
changed. -/
theorem C10_getStats_witness :
    readRef (capabilityCalls (getStatsCall ⟨[initStats]⟩ 0).2 [(0, false, 3)])
        (getStatsCall ⟨[initStats]⟩ 0).1 = initStats
    ∧ readRef (capabilityCalls (getStatsCall ⟨[initStats]⟩ 0).2 [(0, false, 3)]) 0
        ≠ initStats := by
  constructor
  · have h := C10_getStats_copy ⟨[initStats]⟩ 0 (by decide)
    exact h.2.2 [(0, false, 3)] (by decide)
  · with_unfolding_all decide

/-! ## Coordinator fallback (claims C1 and C9) -/

theorem runSources_all_fail {β : Type} (l : List (Source β))
    (h : ∀ s ∈ l, hitSome s = false) : runSources l = (none, l) := by
  induction l with
  | nil => rfl
  | cons s rest ih =>
    have hs := h s (List.mem_cons_self s rest)
    have hr := ih fun x hx => h x (List.mem_cons_of_mem s hx)
    cases hresp : s.response with
    | error e => simp [runSources, hresp, hr]
    | ok v =>
      cases v with
      | none => simp [runSources, hresp, hr]
      | some x => simp [hitSome, hresp] at hs

theorem runSources_first_hit {β : Type} :
    ∀ (l₁ : List (Source β)) (s : Source β) (l₂ : List (Source β)) (v : β),
    (∀ x ∈ l₁, hitSome x = false) → s.response = Except.ok (some v) →
    runSources (l₁ ++ s :: l₂) = (some v, l₁ ++ [s]) := by
  intro l₁
  induction l₁ with
  | nil =>
    intro s l₂ v _ hresp
    simp [runSources, hresp]
  | cons x rest ih =>
    intro s l₂ v hfail hresp
    have hx := hfail x (List.mem_cons_self x rest)
    have hr := ih s l₂ v (fun y hy => hfail y (List.mem_cons_of_mem x hy)) hresp
    cases hxresp : x.response with
    | error e => simp [runSources, hxresp, hr]
    | ok w =>
      cases w with
      | none => simp [runSources, hxresp, hr]
      | some z => simp [hitSome, hxresp] at hx

/-- Complete case analysis of one loop of `tryDataSources`: either every
source's call fails and everything was invoked, or the loop stops at the
first truthy source. -/
theorem runSources_cases {β : Type} (l : List (Source β)) :
    ((∀ s ∈ l, hitSome s = false) ∧ runSources l = (none, l))
    ∨ ∃ l₁ s l₂ v, l = l₁ ++ s :: l₂ ∧ (∀ x ∈ l₁, hitSome x = false)
        ∧ s.response = Except.ok (some v) ∧ runSources l = (some v, l₁ ++ [s]) := by
  induction l with
  | nil => left; exact ⟨by simp, rfl⟩
  | cons s rest ih =>
    cases hresp : s.response with
    | ok v =>
      cases v with
      | some x =>
        right
        exact ⟨[], s, rest, x, rfl, by simp, hresp, by simp [runSources, hresp]⟩
      | none =>
        rcases ih with ⟨hall, hrun⟩ | ⟨l₁, t, l₂, v, heq, hfail, hresp2, hrun⟩
        · left
          refine ⟨?_, by simp [runSources, hresp, hrun]⟩
          intro x hx
          rcases List.mem_cons.mp hx with h1 | h2
          · subst h1; simp [hitSome, hresp]
          · exact hall x h2
        · right
          refine ⟨s :: l₁, t, l₂, v, by rw [heq]; rfl, ?_, hresp2,
            by simp [runSources, hresp, hrun]⟩
          intro x hx
          rcases List.mem_cons.mp hx with h1 | h2
          · subst h1; simp [hitSome, hresp]
          · exact hfail x h2
    | error e =>
      rcases ih with ⟨hall, hrun⟩ | ⟨l₁, t, l₂, v, heq, hfail, hresp2, hrun⟩
      · left
        refine ⟨?_, by simp [runSources, hresp, hrun]⟩
        intro x hx
        rcases List.mem_cons.mp hx with h1 | h2
        · subst h1; simp [hitSome, hresp]
        · exact hall x h2
      · right
        refine ⟨s :: l₁, t, l₂, v, by rw [heq]; rfl, ?_, hresp2,
          by simp [runSources, hresp, hrun]⟩
        intro x hx
        rcases List.mem_cons.mp hx with h1 | h2
        · subst h1; simp [hitSome, hresp]
        · exact hfail x h2

theorem runSources_trace_front {β : Type} (l : List (Source β)) :
    (runSources l).2 <+: l := by
  rcases runSources_cases l with ⟨_, hrun⟩ | ⟨l₁, s, l₂, v, heq, _, _, hrun⟩
  · rw [hrun]
  · rw [hrun, heq]
    exact ⟨l₂, by simp⟩

theorem tryDataSources_healthy {β : Type} (l : List (Source β))
    (h : (l.filter Source.healthy).isEmpty = false) :
    tryDataSources l = runSources (l.filter Source.healthy) := by
  simp only [tryDataSources, h, Bool.false_eq_true, if_false]

theorem tryDataSources_noHealthy {β : Type} (l : List (Source β))
    (h : (l.filter Source.healthy).isEmpty = true) :
    tryDataSources l = runSources l := by
  simp only [tryDataSources, h, if_true]

/-- C1: with a non-empty healthy subset the coordinator invokes only
healthy adapters, as an initial segment of the healthy list; all invoked
adapters but the stopping one failed; a returned value is the stopping
adapter's result; if every healthy adapter is absent the call returns
absence having invoked exactly the healthy adapters (no unhealthy one).
With an empty healthy subset it walks the full registry, invoking every
registered adapter when all are absent.  The invocation order respects
descending priority whenever the registry is priority-sorted. -/
theorem C1_coordinator_fallback {β : Type} (l : List (Source β)) :
    ((l.filter Source.healthy) ≠ [] →
      (∀ s ∈ (tryDataSources l).2, s.healthy = true)
      ∧ (tryDataSources l).2 <+: (l.filter Source.healthy)
      ∧ (∀ s ∈ (tryDataSources l).2.dropLast, hitSome s = false)
      ∧ (∀ v, (tryDataSources l).1 = some v →
          ∃ s, (tryDataSources l).2.getLast? = some s ∧ s.response = Except.ok (some v))
      ∧ ((∀ s ∈ l.filter Source.healthy, hitSome s = false) →
          (tryDataSources l).1 = none ∧ (tryDataSources l).2 = l.filter Source.healthy))
    ∧ ((l.filter Source.healthy) = [] →
      (tryDataSources l).2 <+: l
      ∧ ((∀ s ∈ l, hitSome s = false) →
          (tryDataSources l).1 = none ∧ (tryDataSources l).2 = l))
    ∧ (l.Pairwise (fun a b => b.priority ≤ a.priority) →
        (tryDataSources l).2.Pairwise (fun a b => b.priority ≤ a.priority)) := by
  refine ⟨?_, ?_, ?_⟩
  · intro hne
    have hemp : (l.filter Source.healthy).isEmpty = false := by
      simpa [List.isEmpty_iff] using hne
    have htry := tryDataSources_healthy l hemp
    rw [htry]
    refine ⟨?_, runSources_trace_front _, ?_, ?_, ?_⟩
    · intro s hs
      exact List.of_mem_filter ((runSources_trace_front _).subset hs)
    · intro s hs
      rcases runSources_cases (l.filter Source.healthy) with ⟨hall, hrun⟩ |
        ⟨l₁, t, l₂, v, heq, hfail, _, hrun⟩
      · rw [hrun] at hs
        exact hall s (List.dropLast_sublist _ |>.subset hs)
      · rw [hrun] at hs
        simp only [List.dropLast_concat] at hs
        exact hfail s hs
    · intro v hv
      rcases runSources_cases (l.filter Source.healthy) with ⟨hall, hrun⟩ |
        ⟨l₁, t, l₂, w, heq, hfail, hresp, hrun⟩
      · rw [hrun] at hv; exact absurd hv (by simp)
      · rw [hrun] at hv ⊢
        obtain rfl : w = v := by simpa using hv
        exact ⟨t, by simp, hresp⟩
    · intro hall
      have := runSources_all_fail _ hall
      rw [this]
      exact ⟨rfl, rfl⟩
  · intro hnil
    have hemp : (l.filter Source.healthy).isEmpty = true := by simp [hnil]
    have htry : tryDataSources l = runSources l := by
      simp [tryDataSources, hemp]
    rw [htry]
    refine ⟨runSources_trace_front _, ?_⟩
    intro hall
    rw [runSources_all_fail _ hall]
    exact ⟨rfl, rfl⟩
  · intro hsorted
    have hsub : (tryDataSources l).2.Sublist l := by
      by_cases hemp : (l.filter Source.healthy).isEmpty
      · have htry := tryDataSources_noHealthy l hemp
        rw [htry]
        exact (runSources_trace_front _).sublist
      · have htry := tryDataSources_healthy l (by simpa using hemp)
        rw [htry]
        exact ((runSources_trace_front _).sublist).trans (List.filter_sublist l)
    exact hsorted.sublist hsub

/-- Witness for C1, at the spec's own example: adapter A (priority HIGH,
unhealthy) and adapter B (priority MEDIUM, healthy, value 5): the call
returns B's value without invoking A; and when B is instead absent, the
coordinator returns absence having invoked only B. -/
theorem C1_coordinator_witness :
    (tryDataSources [⟨2, false, .ok (some 1)⟩, ⟨1, true, .ok (some (5 : Nat))⟩]).1 = some 5
    ∧ (tryDataSources [⟨2, false, .ok (some 1)⟩, ⟨1, true, .ok (some (5 : Nat))⟩]).2
        = [⟨1, true, .ok (some 5)⟩]
    ∧ (tryDataSources [⟨2, false, .ok (some (1 : Nat))⟩, ⟨1, true, .ok none⟩]).1 = none
    ∧ (tryDataSources [⟨2, false, .ok (some (1 : Nat))⟩, ⟨1, true, .ok none⟩]).2
        = [⟨1, true, .ok none⟩] := by
  have hf2 : ([⟨2, false, .ok (some (1 : Nat))⟩, ⟨1, true, .ok none⟩] :
      List (Source Nat)).filter Source.healthy = [⟨1, true, .ok none⟩] := rfl
  have h2 := (C1_coordinator_fallback
    [⟨2, false, .ok (some (1 : Nat))⟩, ⟨1, true, .ok none⟩]).1
    (by rw [hf2]; exact List.cons_ne_nil _ _)
  have h2' := h2.2.2.2.2 (by
    rw [hf2]
    intro s hs
    rw [List.mem_singleton] at hs
    subst hs
    rfl)
  exact ⟨rfl, rfl, h2'.1, hf2 ▸ h2'.2⟩

/-- C9: the search capability never yields an absence marker — when every
attempted source's call fails it returns `[]`; a source resolving any
list (even the empty list) short-circuits the fallback, with no
lower-priority source invoked; and every source invoked before the
stopping point had a failing call (`throw`/timeout = `error`, or `null`)
— never a source that merely returned an empty list. -/
theorem C9_search_short_circuit {γ : Type} (l : List (Source (List γ))) :
    ((∀ s ∈ l, hitSome s = false) → searchStocks l = [])
    ∧ (∀ (l₁ : List (Source (List γ))) (s : Source (List γ)) (l₂ : List (Source (List γ))),
        l = l₁ ++ s :: l₂ → (∀ x ∈ l₁, x.healthy = true ∧ hitSome x = false) →
        s.healthy = true → s.response = Except.ok (some []) →
        searchStocks l = [] ∧ (tryDataSources l).2 = l₁ ++ [s])
    ∧ (∀ s ∈ (tryDataSources l).2.dropLast,
        s.response = Except.error () ∨ s.response = Except.ok none) := by
  refine ⟨?_, ?_, ?_⟩
  · intro hall
    have hfali : ∀ s ∈ l.filter Source.healthy, hitSome s = false := fun s hs =>
      hall s ((List.filter_sublist l).subset hs)
    by_cases hemp : (l.filter Source.healthy).isEmpty
    · have htry : tryDataSources l = runSources l := by simp [tryDataSources, hemp]
      simp [searchStocks, htry, runSources_all_fail _ hall]
    · have htry : tryDataSources l = runSources (l.filter Source.healthy) := by
        simp [tryDataSources, hemp]
      simp [searchStocks, htry, runSources_all_fail _ hfali]
  · intro l₁ s l₂ heq hfail hsh hsresp
    subst heq
    have hfilter : (l₁ ++ s :: l₂).filter Source.healthy
        = l₁ ++ s :: (l₂.filter Source.healthy) := by
      rw [List.filter_append]
      congr 1
      · exact List.filter_eq_self.mpr fun x hx => (hfail x hx).1
      · rw [List.filter_cons_of_pos (by simp [hsh])]
    have hemp : ((l₁ ++ s :: l₂).filter Source.healthy).isEmpty = false := by
      rw [hfilter]; simp
    have hrun : tryDataSources (l₁ ++ s :: l₂) = (some [], l₁ ++ [s]) := by
      rw [tryDataSources_healthy _ hemp, hfilter]
      exact runSources_first_hit l₁ s _ [] (fun x hx => (hfail x hx).2) hsresp
    constructor
    · simp [searchStocks, hrun]
    · rw [hrun]
  · intro s hs
    have hfail : hitSome s = false := by
      by_cases hemp : (l.filter Source.healthy).isEmpty
      · have htry := tryDataSources_noHealthy l hemp
        rw [htry] at hs
        rcases runSources_cases l with ⟨hall, hrun⟩ | ⟨l₁, t, l₂, v, heq, hfa, _, hrun⟩
        · rw [hrun] at hs
          exact hall s (List.dropLast_sublist _ |>.subset hs)
        · rw [hrun] at hs
          simp only [List.dropLast_concat] at hs
          exact hfa s hs
      · have htry := tryDataSources_healthy l (by simpa using hemp)
        rw [htry] at hs
        rcases runSources_cases (l.filter Source.healthy) with ⟨hall, hrun⟩ |
          ⟨l₁, t, l₂, v, heq, hfa, _, hrun⟩
        · rw [hrun] at hs
          exact hall s (List.dropLast_sublist _ |>.subset hs)
        · rw [hrun] at hs
          simp only [List.dropLast_concat] at hs
          exact hfa s hs
    cases hresp : s.response with
    | error e => left; rfl
    | ok v =>
      cases v with
      | none => right; rfl
      | some x => simp [hitSome, hresp] at hfail

/-- Witness for C9: first source fails with `null`, second resolves the
empty list and short-circuits, third (which would return a hit) is never
invoked. -/
theorem C9_search_witness :
    searchStocks [⟨2, true, .ok none⟩, ⟨1, true, .ok (some [])⟩,
        ⟨0, true, .ok (some [(7 : Nat)])⟩] = []
    ∧ (tryDataSources [⟨2, true, .ok none⟩, ⟨1, true, .ok (some [])⟩,
        ⟨0, true, .ok (some [(7 : Nat)])⟩]).2
      = [⟨2, true, .ok none⟩, ⟨1, true, .ok (some [])⟩] := by
  have h := (C9_search_short_circuit [⟨2, true, .ok none⟩, ⟨1, true, .ok (some [])⟩,
    ⟨0, true, .ok (some [(7 : Nat)])⟩]).2.1 [⟨2, true, .ok none⟩] ⟨1, true, .ok (some [])⟩
    [⟨0, true, .ok (some [(7 : Nat)])⟩] rfl (by decide) rfl rfl
  exact ⟨h.1, by simpa using h.2⟩

/-! ## Period slicing (claim C6) -/

theorem mkTime_emod (y m d : Int) : mkTime y m d % msPerDay = 0 := by
  unfold mkTime
  exact Int.mul_emod_left _ _

/-- C6 counterexample: for the token `1d` the cutoff is the fixed window
`now.getTime() - 24h`, which carries the time of day; it is not the
midnight timestamp of any calendar date `new Date(y, m, d)`, so no
calendar-arithmetic cutoff reproduces the result: with two points one
millisecond apart straddling the code's cutoff, the slice `[c6p2]`
differs from `filter (mkTime y m d ≤ ·.date)` for every `y m d`. -/
theorem C6_counterexample :
    getDataForPeriod c6now c6data "1d" = [c6p2]
    ∧ ¬ ∃ y m d : Int, getDataForPeriod c6now c6data "1d"
        = c6data.dataPoints.filter fun q => decide (mkTime y m d ≤ q.date) := by
  have hres : getDataForPeriod c6now c6data "1d" = [c6p2] := by decide
  refine ⟨hres, ?_⟩
  rintro ⟨y, m, d, heq⟩
  rw [hres] at heq
  have hpoints : c6data.dataPoints = [c6p1, c6p2] := rfl
  rw [hpoints] at heq
  by_cases h1 : mkTime y m d ≤ c6p1.date
  · have h2 : mkTime y m d ≤ c6p2.date := le_trans h1 (by decide)
    rw [List.filter_cons_of_pos (by simpa using h1),
      List.filter_cons_of_pos (by simpa using h2)] at heq
    have hpp : c6p2 = c6p1 := by
      have := congrArg (fun l => l.headD defaultPoint) heq
      simpa using this
    exact absurd hpp (by decide)
  · by_cases h2 : mkTime y m d ≤ c6p2.date
    · have hmod := mkTime_emod y m d
      have hT : c6T = 1718366400000 := by decide
      have hd1 : c6p1.date = c6T - 1 := rfl
      have hd2 : c6p2.date = c6T := rfl
      rw [hd1, hT] at h1
      rw [hd2, hT] at h2
      have hms : msPerDay = 86400000 := rfl
      rw [hms] at hmod
      omega
    · rw [List.filter_cons_of_neg (by simpa using h1),
        List.filter_cons_of_neg (by simpa using h2)] at heq
      simp at heq

/-- C6 (amended): tokens `1m,3m,6m,1y,2y,5y` (and their long forms) use
calendar month/year subtraction from the current date; tokens `1d` and
`1w` use fixed millisecond windows (24h and 7×24h) from the current
instant; in each case the result is exactly the points with date ≥ the
cutoff; any unrecognized token returns the full series unfiltered. -/
theorem C6_amended_slicing (now : NowDate) (data : ParsedStockData) (period : String) :
    ((strToLower period = "1d" ∨ strToLower period = "1day") → getDataForPeriod now data period
      = data.dataPoints.filter fun q => decide (now.time - msPerDay ≤ q.date))
    ∧ ((strToLower period = "1w" ∨ strToLower period = "1week") → getDataForPeriod now data period
      = data.dataPoints.filter fun q => decide (now.time - 7 * msPerDay ≤ q.date))
    ∧ ((strToLower period = "1m" ∨ strToLower period = "1month") → getDataForPeriod now data period
      = data.dataPoints.filter fun q => decide (mkTime now.year (now.month - 1) now.day ≤ q.date))
    ∧ ((strToLower period = "3m" ∨ strToLower period = "3months") → getDataForPeriod now data period
      = data.dataPoints.filter fun q => decide (mkTime now.year (now.month - 3) now.day ≤ q.date))
    ∧ ((strToLower period = "6m" ∨ strToLower period = "6months") → getDataForPeriod now data period
      = data.dataPoints.filter fun q => decide (mkTime now.year (now.month - 6) now.day ≤ q.date))
    ∧ ((strToLower period = "1y" ∨ strToLower period = "1year") → getDataForPeriod now data period
      = data.dataPoints.filter fun q => decide (mkTime (now.year - 1) now.month now.day ≤ q.date))
    ∧ ((strToLower period = "2y" ∨ strToLower period = "2years") → getDataForPeriod now data period
      = data.dataPoints.filter fun q => decide (mkTime (now.year - 2) now.month now.day ≤ q.date))
    ∧ ((strToLower period = "5y" ∨ strToLower period = "5years") → getDataForPeriod now data period
      = data.dataPoints.filter fun q => decide (mkTime (now.year - 5) now.month now.day ≤ q.date))
    ∧ (strToLower period ∉ ["1d", "1day", "1w", "1week", "1m", "1month", "3m", "3months",
        "6m", "6months", "1y", "1year", "2y", "2years", "5y", "5years"] →
      getDataForPeriod now data period = data.dataPoints) := by
  refine ⟨?_, ?_, ?_, ?_, ?_, ?_, ?_, ?_, ?_⟩
  · rintro (hp | hp) <;> (simp only [getDataForPeriod]; rw [hp]; rfl)
  · rintro (hp | hp) <;> (simp only [getDataForPeriod]; rw [hp]; rfl)
  · rintro (hp | hp) <;> (simp only [getDataForPeriod]; rw [hp]; rfl)
  · rintro (hp | hp) <;> (simp only [getDataForPeriod]; rw [hp]; rfl)
  · rintro (hp | hp) <;> (simp only [getDataForPeriod]; rw [hp]; rfl)
  · rintro (hp | hp) <;> (simp only [getDataForPeriod]; rw [hp]; rfl)
  · rintro (hp | hp) <;> (simp only [getDataForPeriod]; rw [hp]; rfl)
  · rintro (hp | hp) <;> (simp only [getDataForPeriod]; rw [hp]; rfl)
  · intro hp
    simp only [List.mem_cons, List.not_mem_nil, or_false, not_or] at hp
    obtain ⟨n1, n2, n3, n4, n5, n6, n7, n8, n9, n10, n11, n12, n13, n14, n15, n16⟩ := hp
    simp only [getDataForPeriod]
    rw [beq_eq_false_iff_ne.mpr n1, beq_eq_false_iff_ne.mpr n2, beq_eq_false_iff_ne.mpr n3,
      beq_eq_false_iff_ne.mpr n4, beq_eq_false_iff_ne.mpr n5, beq_eq_false_iff_ne.mpr n6,
      beq_eq_false_iff_ne.mpr n7, beq_eq_false_iff_ne.mpr n8, beq_eq_false_iff_ne.mpr n9,
      beq_eq_false_iff_ne.mpr n10, beq_eq_false_iff_ne.mpr n11, beq_eq_false_iff_ne.mpr n12,
      beq_eq_false_iff_ne.mpr n13, beq_eq_false_iff_ne.mpr n14, beq_eq_false_iff_ne.mpr n15,
      beq_eq_false_iff_ne.mpr n16]
    rfl

/-! ## Parser error policy and row invariants (claims C7 and C3) -/

theorem parseDataRow_invariants (oracle : String → Option Int) (values : List String)
    (cm : ColumnMap) (p : StockDataPoint) (h : parseDataRow oracle values cm = some p) :
    0 < p.open_ ∧ 0 < p.high ∧ 0 < p.low ∧ 0 < p.close
    ∧ max p.open_ p.close ≤ p.high ∧ p.low ≤ min p.open_ p.close := by
  unfold parseDataRow at h
  split at h
  · simp at h
  · split at h
    · simp at h
    · split at h
      · split at h
        · simp at h
          obtain ⟨⟨h1, h2, h3, h4⟩, ⟨⟨h5, h6⟩, ⟨h7, h8⟩, h9⟩, hX⟩ := h
          subst hX
          exact ⟨h1, h2, h3, h4, sup_le h5 h6, le_inf h7 h8⟩
        · simp at h
          obtain ⟨⟨h1, h2, h3, h4⟩, ⟨⟨h5, h6⟩, ⟨h7, h8⟩, h9⟩, hX⟩ := h
          subst hX
          exact ⟨h1, h2, h3, h4, sup_le h5 h6, le_inf h7 h8⟩
      · simp at h

/-- C3: every point of a successfully parsed series satisfies the OHLC
invariants (strictly positive prices, `high ≥ max(open, close)`,
`low ≤ min(open, close)`); and a violating row is only dropped — as long
as at least one row survives (and the input has two lines), the parse
succeeds with exactly the surviving rows. -/
theorem C3_row_invariants (oracle : String → Option Int) (raw ticker : String) :
    (∀ d, parseStockCSV oracle raw ticker = .ok d → ∀ p ∈ d.dataPoints,
      0 < p.open_ ∧ 0 < p.high ∧ 0 < p.low ∧ 0 < p.close
      ∧ max p.open_ p.close ≤ p.high ∧ p.low ≤ min p.open_ p.close)
    ∧ (2 ≤ (linesOf raw).length → validRows oracle raw ≠ [] →
      ∃ d, parseStockCSV oracle raw ticker = .ok d
        ∧ d.dataPoints.length = (validRows oracle raw).length) := by
  constructor
  · intro d hd p hp
    by_cases h1 : (linesOf raw).length < 2
    · simp [parseStockCSV, h1] at hd
    by_cases h2 : (validRows oracle raw).isEmpty
    · simp [parseStockCSV, h1, h2] at hd
    simp [parseStockCSV, h1, h2] at hd
    subst hd
    simp only at hp
    have hmem : p ∈ validRows oracle raw :=
      (List.perm_insertionSort dateLE (validRows oracle raw)).subset hp
    simp only [validRows, List.mem_filterMap] at hmem
    obtain ⟨line, _, hline⟩ := hmem
    split_ifs at hline with hlen
    exact parseDataRow_invariants _ _ _ _ hline
  · intro h1 h2
    have h1' : ¬(linesOf raw).length < 2 := by omega
    have h2' : ¬(validRows oracle raw).isEmpty := by
      simpa [List.isEmpty_iff] using h2
    have hres : parseStockCSV oracle raw ticker = .ok
        { ticker := strToUpper ticker
          dataPoints := List.insertionSort dateLE (validRows oracle raw)
          startDate := ((List.insertionSort dateLE (validRows oracle raw)).headD defaultPoint).date
          endDate := ((List.insertionSort dateLE (validRows oracle raw)).getLastD defaultPoint).date
          totalPoints := (List.insertionSort dateLE (validRows oracle raw)).length
          columns := headersOf raw } := by
      simp only [parseStockCSV, if_neg h1', if_neg h2']
    refine ⟨_, hres, ?_⟩
    show (List.insertionSort dateLE (validRows oracle raw)).length = _
    exact (List.perm_insertionSort dateLE (validRows oracle raw)).length_eq

/-- Witness for C3: a two-row CSV whose first data row has
`high < max(open, close)` parses successfully with exactly the one
surviving (valid) row — the violating row is dropped, not fatal. -/
theorem C3_row_witness :
    ∃ d, parseStockCSV (fun _ => none)
        "date,open,high,low,close\n2023-01-02,5,4,1,5\n2023-01-01,1,2,1,1" "t" = .ok d
      ∧ d.dataPoints.length = 1 := by
  have h := (C3_row_invariants (fun _ => none)
    "date,open,high,low,close\n2023-01-02,5,4,1,5\n2023-01-01,1,2,1,1" "t").2
    (by decide) (by with_unfolding_all decide)
  obtain ⟨d, hd, hlen⟩ := h
  refine ⟨d, hd, ?_⟩
  rw [hlen]
  with_unfolding_all decide

/-- C7: `parseStockCSV` fails with the parse error exactly when the
(trimmed, newline-split) input has fewer than two lines, with the data
error exactly when two lines are present but no row survives validation,
and otherwise returns a series sorted ascending by date. -/
theorem C7_parse_error_policy (oracle : String → Option Int) (raw ticker : String) :
    (parseStockCSV oracle raw ticker = .error .parseError ↔ (linesOf raw).length < 2)
    ∧ (parseStockCSV oracle raw ticker = .error .dataError ↔
        2 ≤ (linesOf raw).length ∧ validRows oracle raw = [])
    ∧ (∀ d, parseStockCSV oracle raw ticker = .ok d →
        d.dataPoints.Pairwise fun a b => a.date ≤ b.date) := by
  by_cases h1 : (linesOf raw).length < 2
  · have hres : parseStockCSV oracle raw ticker = .error .parseError := by
      simp [parseStockCSV, h1]
    rw [hres]
    exact ⟨⟨fun _ => h1, fun _ => rfl⟩,
      ⟨fun hc => absurd hc (by simp), fun hc => absurd hc.1 (by omega)⟩,
      fun d hd => absurd hd (by simp)⟩
  · by_cases h2 : (validRows oracle raw).isEmpty
    · have hres : parseStockCSV oracle raw ticker = .error .dataError := by
        simp [parseStockCSV, h1, h2]
      rw [hres]
      refine ⟨⟨fun hc => absurd hc (by simp), fun hlt => absurd hlt h1⟩,
        ⟨fun _ => ⟨by omega, by simpa [List.isEmpty_iff] using h2⟩, fun _ => rfl⟩,
        fun d hd => absurd hd (by simp)⟩
    · have hsorted := List.sorted_insertionSort dateLE (validRows oracle raw)
      refine ⟨⟨fun hc => ?_, fun hlt => absurd hlt h1⟩,
        ⟨fun hc => ?_, fun hc => absurd hc.2 (by simpa [List.isEmpty_iff] using h2)⟩,
        fun d hd => ?_⟩
      · simp [parseStockCSV, h1, h2] at hc
      · simp [parseStockCSV, h1, h2] at hc
      · simp [parseStockCSV, h1, h2] at hd
        subst hd
        simp only
        exact hsorted.imp fun hab => hab

/-- Witness for C7 at concrete inputs: a one-line input gives the parse
error, a two-line input with no valid row gives the data error, and a
well-formed input parses with dates sorted ascending. -/
theorem C7_parse_witness :
    parseStockCSV (fun _ => none) "just-one-line" "t" = .error .parseError
    ∧ parseStockCSV (fun _ => none) "date,open,high,low,close\nnot,a,valid,row,x" "t"
        = .error .dataError := by
  refine ⟨?_, ?_⟩
  · exact (C7_parse_error_policy (fun _ => none) "just-one-line" "t").1.mpr (by decide)
  · exact (C7_parse_error_policy (fun _ => none)
      "date,open,high,low,close\nnot,a,valid,row,x" "t").2.1.mpr
      ⟨by decide, by with_unfolding_all decide⟩

/-! ## Column-role resolution (claim C2) -/

theorem roleGet_empty (r : Role) : roleGet {} r = none := by cases r <;> rfl

theorem roleGet_pass1Step (m : ColumnMap) (i : Nat) (h : String) (r : Role) :
    roleGet (pass1Step m i h) r = if pass1Cond r h then some i else roleGet m r := by
  cases r <;> rfl

theorem roleGet_pass1_foldl (r : Role) :
    ∀ (l : List (Nat × String)) (acc : ColumnMap),
      roleGet (l.foldl (fun m p => pass1Step m p.1 p.2) acc) r
        = l.foldl (fun a p => if pass1Cond r p.2 then some p.1 else a) (roleGet acc r) := by
  intro l
  induction l with
  | nil => intro acc; rfl
  | cons q t ih =>
    intro acc
    simp only [List.foldl_cons]
    rw [ih, roleGet_pass1Step]

theorem foldl_lastMatch (cond : String → Bool) :
    ∀ (l : List (Nat × String)) (acc : Option Nat),
      ((∀ p ∈ l, cond p.2 = false)
        ∧ l.foldl (fun a p => if cond p.2 then some p.1 else a) acc = acc)
      ∨ (∃ p ∈ l, cond p.2 = true
        ∧ l.foldl (fun a p => if cond p.2 then some p.1 else a) acc = some p.1) := by
  intro l
  induction l with
  | nil => intro acc; left; exact ⟨by simp, rfl⟩
  | cons q t ih =>
    intro acc
    rcases ih (if cond q.2 then some q.1 else acc) with ⟨hall, heq⟩ | ⟨p, hp, hc, heq⟩
    · by_cases hq : cond q.2
      · right
        refine ⟨q, List.mem_cons_self q t, hq, ?_⟩
        simp only [List.foldl_cons]
        rw [heq, if_pos hq]
      · left
        refine ⟨?_, ?_⟩
        · intro p hp
          rcases List.mem_cons.mp hp with h1 | h2
          · subst h1; exact Bool.not_eq_true _ ▸ (by simpa using hq)
          · exact hall p h2
        · simp only [List.foldl_cons]
          rw [heq, if_neg hq]
    · right
      exact ⟨p, List.mem_cons_of_mem q hp, hc, by simpa only [List.foldl_cons] using heq⟩

theorem createColumnMap_preserve (hs : List String) (r : Role) (j : Nat)
    (h : roleGet (pass1 hs) r = some j) : roleGet (createColumnMap hs) r = some j := by
  cases r <;>
    simp only [roleGet] at h <;>
    simp only [createColumnMap, roleGet] <;>
    split_ifs <;>
    simp_all

/-- C2: a role that some header matches exactly (by the pass-1 synonym
tables) always resolves to an exactly-matching header — the substring
fallback passes never shadow an exact match; in particular, for the
headers `[date, delisting_date, open, high, low, close, volume]` the
date role resolves to column 0 (`date`), not to `delisting_date`. -/
theorem C2_exact_wins (hs : List String) (r : Role)
    (h : ∃ j, j < hs.length ∧ pass1Cond r (hs.getD j "") = true) :
    (∃ j, j < hs.length ∧ roleGet (createColumnMap hs) r = some j
        ∧ pass1Cond r (hs.getD j "") = true)
    ∧ roleGet (createColumnMap
        ["date", "delisting_date", "open", "high", "low", "close", "volume"]) Role.date
      = some 0 := by
  constructor
  · obtain ⟨j0, hj0, hcond⟩ := h
    have hpass1 : roleGet (pass1 hs) r
        = hs.enum.foldl (fun a p => if pass1Cond r p.2 then some p.1 else a) none := by
      rw [pass1, roleGet_pass1_foldl, roleGet_empty]
    rcases foldl_lastMatch (pass1Cond r) hs.enum none with ⟨hall, _⟩ | ⟨p, hp, hc, heq⟩
    · exfalso
      have hmem : ((j0 : Nat), hs.getD j0 "") ∈ hs.enum := by
        rw [List.mk_mem_enum_iff_getElem?]
        rw [List.getD_eq_getElem _ _ hj0]
        exact List.getElem?_eq_getElem hj0
      have := hall _ hmem
      simp only at this
      rw [hcond] at this
      exact absurd this (by simp)
    · have hpmem := List.mem_enum_iff_getElem?.mp hp
      have hlt : p.1 < hs.length := (List.getElem?_eq_some.mp hpmem).1
      refine ⟨p.1, hlt, ?_, ?_⟩
      · exact createColumnMap_preserve hs r p.1 (by rw [hpass1, heq])
      · have hgd : hs.getD p.1 "" = p.2 := by
          rw [List.getD_eq_getElem _ _ hlt]
          exact (List.getElem?_eq_some.mp hpmem).2 ▸ rfl
        rw [hgd]
        exact hc
  · decide

/-- Witness for C2: the spec's example headers, with the date role. -/
theorem C2_exact_wins_witness :
    ∃ j, j < (["date", "delisting_date", "open", "high", "low", "close", "volume"] :
        List String).length
      ∧ roleGet (createColumnMap
          ["date", "delisting_date", "open", "high", "low", "close", "volume"]) Role.date
        = some j
      ∧ pass1Cond Role.date ((["date", "delisting_date", "open", "high", "low", "close",
          "volume"] : List String).getD j "") = true :=
  (C2_exact_wins ["date", "delisting_date", "open", "high", "low", "close", "volume"]
    Role.date ⟨0, by decide, by decide⟩).1

/-- Witness for the amended C6 at concrete inputs: the `1d` slice keeps
exactly the point at the cutoff, and an unknown token returns the full
series. -/
theorem C6_amended_witness :
    getDataForPeriod c6now c6data "1d"
      = c6data.dataPoints.filter (fun q => decide (c6now.time - msPerDay ≤ q.date))
    ∧ getDataForPeriod c6now c6data "max" = c6data.dataPoints := by
  constructor
  · exact (C6_amended_slicing c6now c6data "1d").1 (Or.inl (by decide))
  · exact (C6_amended_slicing c6now c6data "max").2.2.2.2.2.2.2.2 (by decide)

/-! ## RSI bounds (claim C5) -/

theorem gainsOf_nonneg (data : List StockDataPoint) : ∀ x ∈ gainsOf data, 0 ≤ x := by
  intro x hx
  simp only [gainsOf, List.mem_map] at hx
  obtain ⟨i, _, hi⟩ := hx
  subst hi
  split_ifs with h
  · exact le_of_lt h
  · exact le_refl 0

theorem lossesOf_nonneg (data : List StockDataPoint) : ∀ x ∈ lossesOf data, 0 ≤ x := by
  intro x hx
  simp only [lossesOf, List.mem_map] at hx
  obtain ⟨i, _, hi⟩ := hx
  subst hi
  split_ifs with h
  · exact abs_nonneg _
  · exact le_refl 0

theorem avgGainAt_nonneg (data : List StockDataPoint) (period i : Nat) :
    0 ≤ avgGainAt data period i := by
  unfold avgGainAt
  apply div_nonneg _ (by positivity)
  apply List.sum_nonneg
  intro x hx
  exact gainsOf_nonneg data x (List.take_subset _ _ (List.drop_subset _ _ hx))

theorem avgLossAt_nonneg (data : List StockDataPoint) (period i : Nat) :
    0 ≤ avgLossAt data period i := by
  unfold avgLossAt
  apply div_nonneg _ (by positivity)
  apply List.sum_nonneg
  intro x hx
  exact lossesOf_nonneg data x (List.take_subset _ _ (List.drop_subset _ _ hx))

/-- C5: for a series of at least 15 points, the first RSI entry is the
sentinel, every non-sentinel entry lies in `[0, 100]`, and whenever the
trailing average loss is exactly zero, the corresponding entry is exactly
100. -/
theorem C5_rsi_bounds (data : List StockDataPoint) (h : 15 ≤ data.length) :
    (calculateRSI data 14).head? = some none
    ∧ (∀ q : ℚ, some q ∈ calculateRSI data 14 → 0 ≤ q ∧ q ≤ 100)
    ∧ (∀ i, 13 ≤ i → i < (gainsOf data).length → avgLossAt data 14 i = 0 →
        (calculateRSI data 14).getD (i + 1) none = some 100) := by
  refine ⟨rfl, ?_, ?_⟩
  · intro q hq
    simp only [calculateRSI, List.mem_cons, List.mem_map] at hq
    rcases hq with hq | ⟨i, _, hi⟩
    · exact absurd hq (by simp)
    · split_ifs at hi with h13 h0
      · rw [Option.some_inj] at hi
        subst hi
        norm_num
      · rw [Option.some_inj] at hi
        subst hi
        have hg := avgGainAt_nonneg data 14 i
        have hl := avgLossAt_nonneg data 14 i
        have hlpos : 0 < avgLossAt data 14 i := lt_of_le_of_ne hl (Ne.symm h0)
        have hrs : 0 ≤ avgGainAt data 14 i / avgLossAt data 14 i := div_nonneg hg hl
        have hden : (1 : ℚ) ≤ 1 + avgGainAt data 14 i / avgLossAt data 14 i := by linarith
        have hfrac_pos : 0 < 100 / (1 + avgGainAt data 14 i / avgLossAt data 14 i) :=
          div_pos (by norm_num) (by linarith)
        have hfrac_le : 100 / (1 + avgGainAt data 14 i / avgLossAt data 14 i) ≤ 100 :=
          div_le_self (by norm_num) hden
        constructor <;> linarith
  · intro i h13 hilen h0
    have hgetd : (calculateRSI data 14).getD (i + 1) none
        = ((List.range (gainsOf data).length).map fun i =>
            if i < 13 then none
            else if avgLossAt data 14 i = 0 then some 100
            else some (100 - 100 / (1 + avgGainAt data 14 i / avgLossAt data 14 i))).getD i
          none := rfl
    rw [hgetd, List.getD_eq_getElem?_getD, List.getElem?_map, List.getElem?_range hilen]
    simp only [Option.map_some', Option.getD_some]
    rw [if_neg (by omega), if_pos h0]

/-- Witness for C5: a 16-point strictly rising series — the average loss
vanishes, so the last RSI entry is exactly 100, and the first entry is
the sentinel. -/
theorem C5_rsi_witness :
    (calculateRSI ((List.range 16).map fun n =>
        ⟨(n : Int), 1, 1, 1, ((n : ℚ) + 1), 0, none⟩) 14).head? = some none
    ∧ (calculateRSI ((List.range 16).map fun n =>
        ⟨(n : Int), 1, 1, 1, ((n : ℚ) + 1), 0, none⟩) 14).getD 15 none = some 100 := by
  have h := C5_rsi_bounds ((List.range 16).map fun n =>
    ⟨(n : Int), 1, 1, 1, ((n : ℚ) + 1), 0, none⟩) (by decide)
  refine ⟨h.1, ?_⟩
  have h14 := h.2.2 14 (by norm_num) (by with_unfolding_all decide)
    (by with_unfolding_all decide)
  exact h14

/-! ## The composite summary on the C4 series (claim C4)

The MACD/signal comparison on a 300-point series is far too deep for the
kernel to evaluate directly, so the EMA arrays are related to the
recurrences `c4E`/`c4M`/`c4SIG` by the structure lemmas below, and the
decisive inequality `signal < macd` at the last index follows from
interval invariants of the recurrences. -/

theorem c4data_length : c4data.length = 300 := by simp [c4data]

theorem c4closes_length : c4closes.length = 300 := by simp [c4closes, c4data]

theorem c4closes_getElem? (n : Nat) (h : n < 300) : c4closes[n]? = some (c4close n) := by
  simp [c4closes, c4data, List.getElem?_map, List.getElem?_range h]

theorem c4close_pos (n : Nat) : 0 < c4close n := by
  unfold c4close c4r
  positivity

theorem c4close_succ (n : Nat) : c4close (n + 1) = c4close n * c4r := by
  unfold c4close
  rw [pow_succ]
  ring

theorem emaRec_length (m : ℚ) : ∀ (l : List ℚ) (prev : ℚ), (emaRec m prev l).length = l.length
  | [], _ => rfl
  | c :: cs, prev => by
    simp only [emaRec, List.length_cons]
    rw [emaRec_length m cs]

theorem emaRec_getD (m : ℚ) :
    ∀ (l : List ℚ) (prev : ℚ) (k : Nat), k < l.length →
      (emaRec m prev l).getD k 0 = emaAfter m prev (l.take (k + 1))
  | [], _, k, hk => by simp at hk
  | c :: cs, prev, 0, _ => by
    simp [emaRec, emaAfter, emaStep]
  | c :: cs, prev, k + 1, hk => by
    have hk' : k < cs.length := by simpa using hk
    simp only [emaRec, List.getD_cons_succ, List.take_succ_cons]
    rw [emaRec_getD m cs _ k hk']
    rfl

theorem emaRec_getLast? (m : ℚ) :
    ∀ (l : List ℚ) (prev : ℚ), l ≠ [] →
      (emaRec m prev l).getLast? = some (emaAfter m prev l)
  | [], _, h => absurd rfl h
  | [c], prev, _ => by simp [emaRec, emaAfter, emaStep]
  | c :: c' :: cs, prev, _ => by
    simp only [emaRec]
    rw [List.getLast?_cons_cons]
    have := emaRec_getLast? m (c' :: cs) ((c - prev) * m + prev) (by simp)
    simp only [emaRec] at this
    rw [this]
    rfl

theorem emaFromRec_map_some (m : ℚ) :
    ∀ (l : List ℚ) (prev : ℚ), emaFromRec m prev (l.map some) = emaRec m prev l
  | [], _ => rfl
  | c :: cs, prev => by
    simp only [List.map_cons, emaFromRec, emaRec]
    rw [emaFromRec_map_some m cs]

theorem c4E_seed (p : Nat) (hp : 1 ≤ p) : c4E p (p - 1) = c4seed p := by
  unfold c4E
  have h1 : (p - 1) + 1 = p := by omega
  rw [h1]
  have hdrop : (c4closes.take p).drop p = [] := by
    apply List.drop_eq_nil_of_le
    simp
  rw [hdrop]
  rfl

theorem c4E_succ (p n : Nat) (hp : p ≤ n + 1) (hn : n + 1 < 300) :
    c4E p (n + 1) = emaStep (2 / ((p : ℚ) + 1)) (c4E p n) (c4close (n + 1)) := by
  unfold c4E emaAfter
  rw [List.take_succ, c4closes_getElem? (n + 1) hn]
  rw [List.drop_append_of_le_length (by rw [List.length_take, c4closes_length]; omega)]
  simp [List.foldl_append]

/-- The value `calculateEMA` stores at a defined index is the recurrence
value `c4E`. -/
theorem calculateEMA_c4_getD (p n : Nat) (hp : 1 ≤ p) (hple : p ≤ 300)
    (hn : p - 1 ≤ n) (hn2 : n < 300) :
    (calculateEMA c4data p).getD n none = some (c4E p n) := by
  have hnot : ¬(c4data.length < p) := by rw [c4data_length]; omega
  have hcloses : c4data.map StockDataPoint.close = c4closes := rfl
  unfold calculateEMA
  rw [if_neg hnot, hcloses]
  rw [List.getD_eq_getElem?_getD,
    List.getElem?_append_right (by rw [List.length_replicate]; omega)]
  rw [List.length_replicate]
  rcases Nat.lt_or_ge (p - 1) n with hlt | hge
  · have hk : n - (p - 1) = (n - p) + 1 := by omega
    rw [hk]
    rw [List.getElem?_cons_succ]
    have hklen : n - p < (emaRec (2 / ((p : ℚ) + 1)) (c4seed p) (c4closes.drop p)).length := by
      rw [emaRec_length, List.length_drop, c4closes_length]
      omega
    rw [List.getElem?_map]
    rw [show (c4closes.take p).sum / (p : ℚ) = c4seed p from rfl]
    rw [List.getElem?_eq_getElem hklen]
    simp only [Option.map_some', Option.getD_some, Option.some.injEq]
    have hgetd : (emaRec (2 / ((p : ℚ) + 1)) (c4seed p) (c4closes.drop p))[n - p]
        = (emaRec (2 / ((p : ℚ) + 1)) (c4seed p) (c4closes.drop p)).getD (n - p) 0 := by
      rw [List.getD_eq_getElem?_getD, List.getElem?_eq_getElem hklen]
      rfl
    rw [hgetd,
      emaRec_getD _ _ _ _ (by rw [List.length_drop, c4closes_length]; omega)]
    unfold c4E
    rw [List.take_drop]
    have : p + (n - p + 1) = n + 1 := by omega
    rw [this]
  · have hn' : n = p - 1 := by omega
    subst hn'
    rw [Nat.sub_self, List.getElem?_cons_zero]
    simp only [Option.getD_some, Option.some.injEq]
    exact (c4E_seed p hp).symm

/-- Below the seed index `calculateEMA` stores the `NaN` sentinel. -/
theorem calculateEMA_c4_none (p n : Nat) (hple : p ≤ 300) (hn : n < p - 1) :
    (calculateEMA c4data p).getD n none = none := by
  have hnot : ¬(c4data.length < p) := by rw [c4data_length]; omega
  unfold calculateEMA
  rw [if_neg hnot]
  rw [List.getD_eq_getElem?_getD,
    List.getElem?_append_left (by rw [List.length_replicate]; omega)]
  rw [List.getElem?_replicate_of_lt hn]
  rfl

theorem macdL_eq : (calculateMACD c4data 12 26 9).macd
    = (List.range 300).map fun i =>
        match (calculateEMA c4data 12).getD i none, (calculateEMA c4data 26).getD i none with
        | some f, some s => some (f - s)
        | _, _ => none := by
  simp only [calculateMACD]
  rw [c4data_length]

theorem macdL_getD_some (n : Nat) (h25 : 25 ≤ n) (h300 : n < 300) :
    (calculateMACD c4data 12 26 9).macd.getD n none = some (c4M n) := by
  rw [macdL_eq, List.getD_eq_getElem?_getD, List.getElem?_map, List.getElem?_range h300]
  simp only [Option.map_some', Option.getD_some]
  rw [calculateEMA_c4_getD 12 n (by norm_num) (by norm_num) (by omega) h300,
    calculateEMA_c4_getD 26 n (by norm_num) (by norm_num) (by omega) h300]
  rfl

theorem macdL_getD_none (n : Nat) (h : n < 25) :
    (calculateMACD c4data 12 26 9).macd.getD n none = none := by
  rw [macdL_eq, List.getD_eq_getElem?_getD, List.getElem?_map,
    List.getElem?_range (by omega : n < 300)]
  simp only [Option.map_some', Option.getD_some]
  rcases Nat.lt_or_ge n 11 with h11 | h11
  · rw [calculateEMA_c4_none 12 n (by norm_num) (by omega)]
  · rw [calculateEMA_c4_getD 12 n (by norm_num) (by norm_num) (by omega) (by omega),
      calculateEMA_c4_none 26 n (by norm_num) (by omega)]

theorem macdL_length : (calculateMACD c4data 12 26 9).macd.length = 300 := by
  rw [macdL_eq]
  simp

/-- A JS slice of any list, rewritten as a map over the index range. -/
theorem sliceJS_eq_map_getD (l : List α) (d : α) (a b : Nat) (hab : a ≤ b)
    (hb : b ≤ l.length) :
    sliceJS l a b = (List.range' a (b - a)).map fun i => l.getD i d := by
  apply List.ext_getElem?
  intro i
  rw [sliceJS, List.getElem?_drop, List.getElem?_map, List.getElem?_take]
  by_cases h : i < b - a
  · rw [if_pos (by omega), List.getElem?_range' _ _ (by omega)]
    simp only [Option.map_some']
    rw [List.getD_eq_getElem?_getD, List.getElem?_eq_getElem (by omega : a + 1 * i < l.length)]
    simp [Nat.one_mul]
  · rw [if_neg (by omega)]
    have : (List.range' a (b - a))[i]? = none := by
      apply List.getElem?_eq_none
      simpa using (by omega : b - a ≤ i)
    rw [this]
    rfl

/-- A list suffix, rewritten as a map over the index range. -/
theorem drop_eq_map_getD (l : List α) (d : α) (a : Nat) (ha : a ≤ l.length) :
    l.drop a = (List.range' a (l.length - a)).map fun i => l.getD i d := by
  apply List.ext_getElem?
  intro i
  rw [List.getElem?_drop, List.getElem?_map]
  by_cases h : i < l.length - a
  · rw [List.getElem?_range' _ _ (by omega)]
    simp only [Option.map_some']
    rw [List.getD_eq_getElem?_getD, List.getElem?_eq_getElem (by omega : a + 1 * i < l.length)]
    simp [Nat.one_mul]
  · have h1 : l[a + i]? = none := List.getElem?_eq_none (by omega)
    have h2 : (List.range' a (l.length - a))[i]? = none := by
      apply List.getElem?_eq_none
      simpa using (by omega : l.length - a ≤ i)
    rw [h1, h2]
    rfl

theorem macd_window :
    (sliceJS (calculateMACD c4data 12 26 9).macd 25 34).filterMap id
      = (List.range' 25 9).map c4M := by
  rw [sliceJS_eq_map_getD _ none 25 34 (by norm_num) (by rw [macdL_length]; norm_num)]
  have hcong : (List.range' 25 (34 - 25)).map (fun i => (calculateMACD c4data 12 26 9).macd.getD i none)
      = (List.range' 25 9).map fun i => some (c4M i) := by
    apply List.map_congr_left
    intro i hi
    rw [List.mem_range'_1] at hi
    exact macdL_getD_some i hi.1 (by omega)
  rw [hcong]
  have : (fun i => some (c4M i)) = some ∘ c4M := rfl
  rw [this, ← List.filterMap_eq_map c4M, List.filterMap_map]
  rfl

theorem macd_drop34 :
    (calculateMACD c4data 12 26 9).macd.drop 34
      = ((List.range' 34 266).map c4M).map some := by
  rw [drop_eq_map_getD _ none 34 (by rw [macdL_length]; norm_num), macdL_length]
  rw [List.map_map]
  apply List.map_congr_left
  intro i hi
  rw [List.mem_range'_1] at hi
  exact macdL_getD_some i (by omega) (by omega)

/-- The MACD line first becomes defined at index 25 (`= 26 - 1`, the slow
EMA's seed index). -/
theorem macd_findIdx : (calculateMACD c4data 12 26 9).macd.findIdx? Option.isSome
    = some 25 := by
  decide

theorem macd_getLast :
    (calculateMACD c4data 12 26 9).macd.getLastD none = some (c4M 299) := by
  have h := macdL_getD_some 299 (by norm_num) (by norm_num)
  rw [List.getD_eq_getElem?_getD] at h
  rw [List.getLastD_eq_getLast?, List.getLast?_eq_getElem?, macdL_length]
  rcases h299 : (calculateMACD c4data 12 26 9).macd[299]? with _ | v
  · rw [h299] at h
    simp at h
  · rw [h299] at h
    simp only [Option.getD_some] at h
    simp [h]

theorem signal_getLast :
    (calculateMACD c4data 12 26 9).signal.getLastD none = some (c4SIG 299) := by
  have hsig : (calculateMACD c4data 12 26 9).signal
      = calculateEMAFromValues (calculateMACD c4data 12 26 9).macd 9 := rfl
  rw [hsig]
  unfold calculateEMAFromValues
  rw [macd_findIdx]
  simp only [macdL_length]
  rw [if_pos (by norm_num : 25 + 9 - 1 < 300)]
  simp only [show (25 : Nat) + 9 = 34 from rfl, show (25 : Nat) + 9 - 1 = 33 from rfl]
  rw [macd_window, macd_drop34, emaFromRec_map_some]
  have hseed : ((List.range' 25 9).map c4M).sum / (((List.range' 25 9).map c4M).length : ℚ)
      = c4sigseed := by
    rw [c4sigseed]
    norm_num
  rw [hseed]
  have hne : ((List.range' 34 266).map c4M) ≠ [] := by simp
  rw [List.getLastD_eq_getLast?, List.getLast?_append, List.getLast?_cons,
    List.getLast?_map, emaRec_getLast? _ _ _ hne]
  simp only [Option.map_some', Option.getD_some, Option.or_some, Option.some.injEq,
    Nat.cast_ofNat]
  unfold c4SIG emaAfter
  rw [show (299 : Nat) - 33 = 266 from rfl, List.foldl_map]

/-- On the C4 series the 12-day EMA stays at or below `402/413` times the
current close (`402/413` is the fixed point of the EMA-12 recurrence on
a series growing by the factor `c4r` each day). -/
theorem c4E12_upper : ∀ n : Nat, 11 ≤ n → n < 300 → c4E 12 n ≤ (402/413) * c4close n := by
  intro n h11
  induction n, h11 using Nat.le_induction with
  | base =>
    intro _
    have hseed : c4E 12 11 = c4seed 12 := by
      have h := c4E_seed 12 (by norm_num)
      norm_num at h
      exact h
    rw [hseed]
    with_unfolding_all decide
  | succ n hn ih =>
    intro h300
    have ihn := ih (by omega)
    rw [c4E_succ 12 n (by omega) h300, c4close_succ]
    have hc := c4close_pos n
    unfold emaStep c4r
    unfold c4r at ihn
    push_cast
    linarith

/-- On the C4 series the 26-day EMA stays at or above `c4w26` times the
current close. -/
theorem c4E26_lower : ∀ n : Nat, 25 ≤ n → n < 300 → c4w26 * c4close n ≤ c4E 26 n := by
  intro n h25
  induction n, h25 using Nat.le_induction with
  | base =>
    intro _
    have hseed : c4E 26 25 = c4seed 26 := by
      have h := c4E_seed 26 (by norm_num)
      norm_num at h
      exact h
    rw [hseed]
    with_unfolding_all decide
  | succ n hn ih =>
    intro h300
    have ihn := ih (by omega)
    rw [c4E_succ 26 n (by omega) h300, c4close_succ]
    have hc := c4close_pos n
    have hw : c4w26 ≤ 402/427 := by with_unfolding_all decide
    have key : 0 ≤ (402/427 - c4w26) * c4close n := mul_nonneg (by linarith) hc.le
    unfold emaStep c4r
    push_cast
    linarith [key]

/-- The MACD line of the C4 series is strictly increasing step by step:
the fast EMA's gap below the growing close exceeds the slow EMA's. -/
theorem c4M_lt_succ (n : Nat) (h25 : 25 ≤ n) (h300 : n + 1 < 300) :
    c4M n < c4M (n + 1) := by
  have h12 := c4E12_upper n (by omega) (by omega)
  have h26 := c4E26_lower n h25 (by omega)
  have hc := c4close_pos n
  have hK : (0:ℚ) < (2/13) * (c4r - 402/413) - (2/27) * (c4r - c4w26) := by
    with_unfolding_all decide
  have key : 0 < ((2/13) * (c4r - 402/413) - (2/27) * (c4r - c4w26)) * c4close n :=
    mul_pos hK hc
  unfold c4M
  rw [c4E_succ 12 n (by omega) h300, c4E_succ 26 n (by omega) h300, c4close_succ]
  unfold emaStep
  push_cast
  linarith [key]

/-- The MACD line of the C4 series is strictly increasing on indices
`25 ≤ m < n < 300`. -/
theorem c4M_strictMono (m : Nat) (hm : 25 ≤ m) :
    ∀ n : Nat, m < n → n < 300 → c4M m < c4M n := by
  intro n
  induction n with
  | zero => intro h _; omega
  | succ k ih =>
    intro hmk hk300
    rcases Nat.lt_succ_iff_lt_or_eq.mp hmk with h | h
    · exact lt_trans (ih h (by omega)) (c4M_lt_succ k (by omega) hk300)
    · rw [← h]
      exact c4M_lt_succ m hm (by omega)

/-- The signal seed (the mean of the MACD values at indices 25–33) sits
strictly below the MACD value at index 33, because the MACD line rose
over that window. -/
theorem c4sigseed_lt : c4sigseed < c4M 33 := by
  have hr : List.range' 25 9 = [25, 26, 27, 28, 29, 30, 31, 32, 33] := rfl
  have h25 := c4M_strictMono 25 (by norm_num) 33 (by norm_num) (by norm_num)
  have h26 := c4M_strictMono 26 (by norm_num) 33 (by norm_num) (by norm_num)
  have h27 := c4M_strictMono 27 (by norm_num) 33 (by norm_num) (by norm_num)
  have h28 := c4M_strictMono 28 (by norm_num) 33 (by norm_num) (by norm_num)
  have h29 := c4M_strictMono 29 (by norm_num) 33 (by norm_num) (by norm_num)
  have h30 := c4M_strictMono 30 (by norm_num) 33 (by norm_num) (by norm_num)
  have h31 := c4M_strictMono 31 (by norm_num) 33 (by norm_num) (by norm_num)
  have h32 := c4M_strictMono 32 (by norm_num) 33 (by norm_num) (by norm_num)
  unfold c4sigseed
  rw [hr]
  simp only [List.map_cons, List.map_nil, List.sum_cons, List.sum_nil]
  linarith

/-- The signal line of the C4 series obeys the EMA-9 recurrence past its
seed index 33. -/
theorem c4SIG_succ (n : Nat) (h : 33 ≤ n) :
    c4SIG (n + 1) = emaStep (2 / ((9 : ℚ) + 1)) (c4SIG n) (c4M (n + 1)) := by
  unfold c4SIG
  rw [show n + 1 - 33 = (n - 33) + 1 from by omega, List.range'_1_concat,
    List.foldl_append]
  simp only [List.foldl_cons, List.foldl_nil]
  rw [show 34 + (n - 33) = n + 1 from by omega]

/-- The signal line lags strictly below the rising MACD line at every
index `33 ≤ n < 300` of the C4 series. -/
theorem c4SIG_lt_c4M : ∀ n : Nat, 33 ≤ n → n < 300 → c4SIG n < c4M n := by
  intro n h33
  induction n, h33 using Nat.le_induction with
  | base =>
    intro _
    have hbase : c4SIG 33 = c4sigseed := rfl
    rw [hbase]
    exact c4sigseed_lt
  | succ n hn ih =>
    intro h300
    have ihn := ih (by omega)
    have hM := c4M_lt_succ n (by omega) h300
    rw [c4SIG_succ n hn]
    unfold emaStep
    linarith

theorem c4close_lt_of_lt (m n : Nat) (h : m < n) : c4close m < c4close n := by
  induction n with
  | zero => omega
  | succ k ih =>
    have hk : c4close k < c4close (k + 1) := by
      rw [c4close_succ]
      have := c4close_pos k
      unfold c4r
      linarith
    rcases Nat.lt_succ_iff_lt_or_eq.mp h with h' | h'
    · exact lt_trans (ih h') hk
    · subst h'
      exact hk

theorem c4close_le_of_le (m n : Nat) (h : m ≤ n) : c4close m ≤ c4close n := by
  rcases Nat.lt_or_ge m n with h' | h'
  · exact le_of_lt (c4close_lt_of_lt m n h')
  · have heq : m = n := by omega
    rw [heq]

theorem c4data_getD (n : Nat) (h : n < 300) :
    c4data.getD n defaultPoint
      = ⟨(n : Int) * msPerDay, c4close n, c4close n, c4close n, c4close n, 0, none⟩ := by
  unfold c4data
  rw [List.getD_eq_getElem?_getD, List.getElem?_map, List.getElem?_range h]
  rfl

/-- The last close of the C4 series is `c4close 299`. -/
theorem c4_last_close : (c4data.getLastD defaultPoint).close = c4close 299 := by
  rw [List.getLastD_eq_getLast?, List.getLast?_eq_getElem?, c4data_length,
    show (300 : Nat) - 1 = 299 from rfl]
  unfold c4data
  rw [List.getElem?_map, List.getElem?_range (by norm_num : (299 : Nat) < 300)]
  rfl

/-- The last entry `calculateSMA` produces on the C4 series is the
window average `c4sma p`. -/
theorem calculateSMA_c4_last (p : Nat) (hp : 1 ≤ p) (hp300 : p ≤ 300) :
    (calculateSMA c4data p).getLastD none = some (c4sma p) := by
  unfold calculateSMA
  rw [c4data_length, List.getLastD_eq_getLast?, List.getLast?_eq_getElem?]
  simp only [List.length_map, List.length_range]
  rw [show (300 : Nat) - 1 = 299 from rfl, List.getElem?_map,
    List.getElem?_range (by norm_num : (299 : Nat) < 300)]
  simp only [Option.map_some', Option.getD_some]
  rw [if_neg (by omega : ¬(299 < p - 1))]
  rw [show (299 : Nat) + 1 = 300 from rfl]
  rfl

/-- Sums of `c4close` over an index window are bounded above by the
window length times the value at any index at or past the window's
end. -/
theorem c4windowSum_ub : ∀ (k a M : Nat), a + k ≤ M + 1 →
    ((List.range' a k).map c4close).sum ≤ (k : ℚ) * c4close M := by
  intro k
  induction k with
  | zero =>
    intro a M _
    simp
  | succ j ih =>
    intro a M h
    rw [List.range'_succ]
    simp only [List.map_cons, List.sum_cons]
    have h1 : c4close a ≤ c4close M := c4close_le_of_le a M (by omega)
    have h2 := ih (a + 1) M (by omega)
    push_cast
    linarith

/-- Sums of `c4close` over an index window are bounded below by the
window length times the value at any index at or before the window's
start. -/
theorem c4windowSum_lb : ∀ (k a m : Nat), m ≤ a →
    (k : ℚ) * c4close m ≤ ((List.range' a k).map c4close).sum := by
  intro k
  induction k with
  | zero =>
    intro a m _
    simp
  | succ j ih =>
    intro a m h
    rw [List.range'_succ]
    simp only [List.map_cons, List.sum_cons]
    have h1 : c4close m ≤ c4close a := c4close_le_of_le m a h
    have h2 := ih (a + 1) m (by omega)
    push_cast
    linarith

/-- The closes in a slice of the C4 series are the `c4close` values over
the corresponding index window. -/
theorem c4slice_sum (a b : Nat) (hab : a ≤ b) (hb : b ≤ 300) :
    ((sliceJS c4data a b).map StockDataPoint.close).sum
      = ((List.range' a (b - a)).map c4close).sum := by
  rw [sliceJS_eq_map_getD c4data defaultPoint a b hab (by rw [c4data_length]; exact hb)]
  rw [List.map_map]
  congr 1
  apply List.map_congr_left
  intro i hi
  rw [List.mem_range'_1] at hi
  rw [Function.comp_apply, c4data_getD i (by omega)]

/-- The 20-day average of the C4 series sits strictly below the last
close, because the series is strictly increasing. -/
theorem c4sma20_lt : c4sma 20 < c4close 299 := by
  unfold c4sma
  rw [show (300 : Nat) - 20 = 280 from rfl,
    c4slice_sum 280 300 (by norm_num) (by norm_num),
    show (300 : Nat) - 280 = 20 from rfl]
  have hsplit : List.range' 280 20 = List.range' 280 19 ++ [299] := by
    have h := List.range'_1_concat 280 19
    norm_num at h
    exact h
  rw [hsplit, List.map_append, List.sum_append]
  simp only [List.map_cons, List.map_nil, List.sum_cons, List.sum_nil, add_zero]
  have hub := c4windowSum_ub 19 280 298 (by norm_num)
  have hlt : c4close 298 < c4close 299 := c4close_lt_of_lt 298 299 (by norm_num)
  rw [div_lt_iff₀ (by norm_num : (0 : ℚ) < ((20 : Nat) : ℚ))]
  push_cast at hub ⊢
  linarith

/-- The 50-day average of the C4 series sits strictly below the 20-day
average, because the older 30 closes all lie below the newest 20. -/
theorem c4sma50_lt : c4sma 50 < c4sma 20 := by
  unfold c4sma
  rw [show (300 : Nat) - 20 = 280 from rfl, show (300 : Nat) - 50 = 250 from rfl,
    c4slice_sum 280 300 (by norm_num) (by norm_num),
    c4slice_sum 250 300 (by norm_num) (by norm_num),
    show (300 : Nat) - 280 = 20 from rfl, show (300 : Nat) - 250 = 50 from rfl]
  have hsplit : List.range' 250 50 = List.range' 250 30 ++ List.range' 280 20 := by
    have h := List.range'_append_1 250 30 20
    norm_num at h
    exact h.symm
  rw [hsplit, List.map_append, List.sum_append]
  have hub := c4windowSum_ub 30 250 279 (by norm_num)
  have hlb := c4windowSum_lb 20 280 280 (by norm_num)
  have hlt : c4close 279 < c4close 280 := c4close_lt_of_lt 279 280 (by norm_num)
  rw [div_lt_div_iff₀ (by norm_num : (0 : ℚ) < ((50 : Nat) : ℚ))
    (by norm_num : (0 : ℚ) < ((20 : Nat) : ℚ))]
  push_cast at hub hlb ⊢
  linarith

/-- On the strictly increasing C4 series every day-over-day loss is
zero. -/
theorem lossesOf_c4 : lossesOf c4data = List.replicate 299 0 := by
  unfold lossesOf
  rw [c4data_length, show (300 : Nat) - 1 = 299 from rfl]
  rw [List.eq_replicate_iff]
  constructor
  · simp
  · intro b hb
    rw [List.mem_map] at hb
    obtain ⟨i, hi, hfb⟩ := hb
    rw [List.mem_range] at hi
    rw [← hfb]
    simp only [c4data_getD (i + 1) (by omega), c4data_getD i (by omega)]
    rw [if_neg (not_lt.mpr (sub_nonneg.mpr (c4close_le_of_le i (i + 1) (by omega))))]

/-- The trailing average loss at the last RSI index of the C4 series is
exactly zero. -/
theorem avgLoss_c4 : avgLossAt c4data 14 298 = 0 := by
  unfold avgLossAt sliceJS
  rw [lossesOf_c4, List.take_replicate, List.drop_replicate]
  simp [List.sum_replicate]

/-- The last RSI entry of the C4 series is exactly 100 (the average loss
is zero, the overbought saturation case). -/
theorem calculateRSI_c4_last : (calculateRSI c4data 14).getLastD none = some 100 := by
  unfold calculateRSI
  simp only []
  rw [List.getLastD_cons]
  have hlen : (gainsOf c4data).length = 299 := by
    unfold gainsOf
    rw [c4data_length]
    simp
  rw [hlen]
  rw [List.getLastD_eq_getLast?, List.getLast?_eq_getElem?]
  simp only [List.length_map, List.length_range]
  rw [show (299 : Nat) - 1 = 298 from rfl, List.getElem?_map,
    List.getElem?_range (by norm_num : (298 : Nat) < 299)]
  simp only [Option.map_some', Option.getD_some]
  rw [if_neg (by norm_num : ¬(298 < 14 - 1))]
  rw [if_pos avgLoss_c4]

/-- `generateSummary` on any inputs whose last indicator values show
price above SMA20 above SMA50, an overbought RSI, and MACD above the
signal line produces the bullish/moderate/buy summary with confidence
`(3/10 + 1/5) / (3/10 + 1/4 + 1/5) = 2/3`. -/
theorem generateSummary_bullish (data : List StockDataPoint)
    (s20l s50l rl : List (Option ℚ)) (mr : MACDResult) (p v20 v50 vr vm vs : ℚ)
    (hp : (data.getLastD defaultPoint).close = p)
    (h20 : s20l.getLastD none = some v20)
    (h50 : s50l.getLastD none = some v50)
    (hr : rl.getLastD none = some vr)
    (hm : mr.macd.getLastD none = some vm)
    (hs : mr.signal.getLastD none = some vs)
    (hp20 : p > v20) (h2050 : v20 > v50) (hr70 : vr > 70) (hms : vm > vs) :
    generateSummary data s20l s50l rl mr = ⟨"bullish", "moderate", "buy", 2/3⟩ := by
  have e1 : (if p > v20 ∧ v20 > v50 then some ("bullish", (3:ℚ)/10)
      else if p < v20 ∧ v20 < v50 then some ("bearish", (3:ℚ)/10)
      else some ("neutral", (1:ℚ)/10)) = some ("bullish", (3:ℚ)/10) :=
    if_pos ⟨hp20, h2050⟩
  have e2 : (if vr > 70 then some ("bearish", (1:ℚ)/4)
      else if vr < 30 then some ("bullish", (1:ℚ)/4)
      else some ("neutral", (1:ℚ)/10)) = some ("bearish", (1:ℚ)/4) := if_pos hr70
  have e3 : (if vm > vs then some ("bullish", (1:ℚ)/5) else some ("bearish", (1:ℚ)/5))
      = some ("bullish", (1:ℚ)/5) := if_pos hms
  unfold generateSummary
  rw [hp, h20, h50, hr, hm, hs]
  simp only []
  simp only [e1, e2, e3]
  with_unfolding_all decide

/-- C4: for a 300-point daily series whose close rises by a steady +0.5%
each day, the composite analysis yields `summary.trend = "bullish"` and
`summary.recommendation = "buy"`: the price > SMA20 > SMA50 vote of
weight 0.3 plus the MACD > signal vote of weight 0.2 outweigh the
RSI-overbought bearish vote of weight 0.25, giving a bullish fraction of
`0.5 / 0.75 = 2/3 > 0.6` (and `≤ 0.8`, hence strength "moderate"). -/
theorem C4_uptrend_bullish_buy :
    analyzeStockSummary c4data = .ok ⟨"bullish", "moderate", "buy", 2/3⟩ := by
  have h3 : (100 : ℚ) > 70 := by norm_num
  have h4 : c4M 299 > c4SIG 299 := c4SIG_lt_c4M 299 (by norm_num) (by norm_num)
  unfold analyzeStockSummary
  rw [if_neg (by rw [c4data_length]; norm_num)]
  rw [generateSummary_bullish c4data _ _ _ _ (c4close 299) (c4sma 20) (c4sma 50) 100
    (c4M 299) (c4SIG 299) c4_last_close
    (calculateSMA_c4_last 20 (by norm_num) (by norm_num))
    (calculateSMA_c4_last 50 (by norm_num) (by norm_num))
    calculateRSI_c4_last macd_getLast signal_getLast
    c4sma20_lt c4sma50_lt h3 h4]

end Saham
